import Mathlib

/-!
Shallow embedding of the `disaster-alerts` core (state/dedup store, threshold
filter, router, pipeline orchestrator) from `src/disaster_alerts/`, together
with theorems settling the frozen claims about it.

Modelling conventions:
* Python `str` is `String`; `None`-or-`str` values are `Option String`.
* Python unbounded `int` is `Int`; float thresholds/coordinates are `Rat`
  (exact arithmetic; the source's float rounding is not load-bearing for any
  claim handled here).
* A Python `dict` with insertion order is an association list
  `List (key × value)`; updating an existing key keeps its position, adding a
  new key appends at the end, matching CPython semantics.
* Fallible code is `Except`; a raised exception is an `error` value.
* The state file on disk is modelled by its JSON parse result (`DiskFile`):
  a file either fails `json.loads` (`invalid`) or yields a JSON value.
-/

namespace DisasterAlerts

/-! ### Python primitive helpers

All string manipulation is implemented structurally over `String.data`
(lists of characters) so that every definition evaluates by kernel
reduction (`decide`/`rfl`) on concrete inputs. -/

/-- A Python `str.strip()` whitespace character. -/
def pyWS (c : Char) : Bool :=
  c == ' ' || c == '\t' || c == '\n' || c == '\r' || c == '\x0b' || c == '\x0c'

/-- Python `str.strip()` (whitespace on both ends). -/
def pyStrip (s : String) : String :=
  ⟨((s.data.dropWhile pyWS).reverse.dropWhile pyWS).reverse⟩

/-- ASCII lower-casing of one character. -/
def asciiLower (c : Char) : Char :=
  if 'A' ≤ c && c ≤ 'Z' then Char.ofNat (c.toNat + 32) else c

/-- Python `str.lower()` (ASCII suffices for the strings in this system). -/
def pyLower (s : String) : String := ⟨s.data.map asciiLower⟩

/-- Value of a nonempty all-digit character list. -/
def digitsVal : List Char → Option Nat
  | [] => none
  | l => if l.all Char.isDigit then
           some (l.foldl (fun n c => 10 * n + (c.toNat - '0'.toNat)) 0)
         else none

/-- Python `int(s)` on a string: optional surrounding whitespace, optional
sign, then decimal digits; anything else raises (modelled as `none`). -/
def pyInt (s : String) : Option Int :=
  match (pyStrip s).data with
  | '-' :: rest => (digitsVal rest).map (fun n => -(n : Int))
  | '+' :: rest => (digitsVal rest).map (fun n => (n : Int))
  | l => (digitsVal l).map (fun n => (n : Int))

/-- Truthiness of an optional string (Python `if x:` on a `str|None`). -/
def pyTruthyStr : Option String → Bool
  | none => false
  | some s => s ≠ ""

/-- Split a character list at every occurrence of `sep`
(Python `s.split(sep)` with a one-character separator). -/
def splitOnC (sep : Char) : List Char → List (List Char)
  | [] => [[]]
  | c :: rest =>
    let r := splitOnC sep rest
    if c = sep then [] :: r
    else
      match r with
      | h :: t => (c :: h) :: t
      | [] => [[c]]

/-- Python `needle in hay` on strings (substring test). -/
def pyIn (needle hay : String) : Bool :=
  hay.data.tails.any fun t => needle.data.isPrefixOf t

/-! ### state.py: ISO-8601 parsing and watermark comparison -/

/-- The comparable tuple `(y, m, d, hh, mm, ss)` built by `_parse_iso8601`. -/
abbrev T6 := Int × Int × Int × Int × Int × Int

/-- Python tuple `<` (lexicographic). -/
def t6Lt (a b : T6) : Bool :=
  if a.1 ≠ b.1 then a.1 < b.1
  else if a.2.1 ≠ b.2.1 then a.2.1 < b.2.1
  else if a.2.2.1 ≠ b.2.2.1 then a.2.2.1 < b.2.2.1
  else if a.2.2.2.1 ≠ b.2.2.2.1 then a.2.2.2.1 < b.2.2.2.1
  else if a.2.2.2.2.1 ≠ b.2.2.2.2.1 then a.2.2.2.2.1 < b.2.2.2.2.1
  else a.2.2.2.2.2 < b.2.2.2.2.2

/-- `_parse_iso8601(ts)`: parse a subset of ISO8601 into an ordering tuple.
`None`/empty/invalid input yields `none` (the Python code catches every
exception from `int(...)`/unpacking and returns `None`). -/
def parseIso8601 (ts : Option String) : Option T6 :=
  match ts with
  | none => none
  | some s =>
    if s = "" then none
    else
      -- strip timezone: drop a trailing "Z", then keep the part before "+"
      let cs := s.data
      let cs := if cs.getLast? = some 'Z' then cs.dropLast else cs
      let cs := if cs.contains '+' then cs.takeWhile (· ≠ '+') else cs
      if cs.contains '-' && cs.contains 'T' then
        -- date, time = t.split("T", 1)
        let date := cs.takeWhile (· ≠ 'T')
        let time := (cs.dropWhile (· ≠ 'T')).tail
        match (splitOnC '-' date).map (fun p => pyInt ⟨p⟩) with
        | [some y, some m, some d] =>
          -- drop subseconds: time.split(".", 1)[0]
          let time := time.takeWhile (· ≠ '.')
          match (splitOnC ':' time).map (fun p => pyInt ⟨p⟩) with
          | [some hh, some mm, some ss] => some (y, m, d, hh, mm, ss)
          | _ => none
        | _ => none
      else none

/-- `_is_newer(a, b)`: `a` strictly newer than `b`; `None`/unparseable lowest. -/
def isNewer (a b : Option String) : Bool :=
  match parseIso8601 a, parseIso8601 b with
  | none, _ => false
  | some _, none => true
  | some pa, some pb => t6Lt pb pa

/-! ### state.py: provider state and the LRU insertion -/

/-- Length kept by Python `del ids[lru_limit:]` on a list of length `len`
(slice index normalization: negative indices count from the end, clamped). -/
def pySliceKeep (lru : Int) (len : Nat) : Nat :=
  if 0 ≤ lru then min lru.toNat len else len - (-lru).toNat

/-- Core of `_ProviderState.add_id` on the raw id list: de-dup inside the
list while keeping most-recent-first, then cap the length at `lru`. -/
def pyAddId (ids : List String) (eid : String) (lru : Int) : List String :=
  if ids.head? = some eid then ids
  else
    let l := eid :: ids.erase eid
    if (l.length : Int) > lru then l.take (pySliceKeep lru l.length) else l

/-- Sequential `add_id` of a batch of ids into one provider's LRU list (the
per-provider effect of the id loop of `update_with`). -/
def idsFold (ids : List String) (lru : Int) (eids : List String) : List String :=
  eids.foldl (fun acc x => pyAddId acc x lru) ids

/-- `_ProviderState`: per-provider LRU id list (most recent first) plus the
advisory `last_updated` watermark. -/
structure ProviderState where
  ids : List String := []
  last_updated : Option String := none
  deriving Repr, DecidableEq

/-- `_ProviderState.add_id(eid, lru_limit)`. -/
def ProviderState.add_id (ps : ProviderState) (eid : String) (lru : Int) : ProviderState :=
  { ps with ids := pyAddId ps.ids eid lru }

/-- `_ProviderState.consider_updated(updated)`. -/
def ProviderState.consider_updated (ps : ProviderState) (updated : Option String) : ProviderState :=
  if pyTruthyStr updated && isNewer updated ps.last_updated then
    { ps with last_updated := updated }
  else ps

/-! ### Events

An event is a fetched alert dict. Fields the core reads are modelled
directly; `none` stands for "key absent or `null`" (the code paths the
claims exercise treat those alike via `.get` defaults and `isinstance`
checks). Provider-specific `properties` values are `PropV`. -/

/-- A value found in an event's `properties` mapping. -/
inductive PropV where
  | pnull
  | pbool (b : Bool)
  | pnum (q : Rat)
  | pstr (s : String)
  deriving Repr, DecidableEq

/-- GeoJSON-ish nested value used for `geometry.coordinates`. -/
inductive GVal where
  | num (q : Rat)
  | list (xs : List GVal)
  | other
  deriving Repr

/-- An event's `geometry` dict (`type` / `coordinates` entries). -/
structure Geom where
  gtype : Option String := none
  coordinates : Option GVal := none
  deriving Repr

structure Event where
  id : Option String := none
  provider : Option String := none
  updated : Option String := none
  routing_key : Option String := none
  title : Option String := none
  severity : Option String := none
  link : Option String := none
  geometry : Option Geom := none
  properties : List (String × PropV) := []
  deriving Repr

/-- `props.get(key, default)` (association-list first match, like a dict). -/
def pvGetD (props : List (String × PropV)) (key : String) (d : PropV) : PropV :=
  match props.lookup key with
  | some v => v
  | none => d

/-- Python truthiness of a `properties` value. -/
def pvTruthy : PropV → Bool
  | .pnull => false
  | .pbool b => b
  | .pnum q => q ≠ 0
  | .pstr s => s ≠ ""

/-- Python `str()` of a `properties` value (numeric rendering approximated;
no claim depends on stringified numbers). -/
def pvStr : PropV → String
  | .pnull => "None"
  | .pbool b => if b then "True" else "False"
  | .pnum q => toString q
  | .pstr s => s

/-! ### state.py: the `State` store -/

/-- A filesystem path, as much of `pathlib.Path` as `state.py` uses:
a fixed prefix (`stem`) plus the suffix that `with_suffix` replaces. -/
structure FPath where
  stem : String
  suffix : String
  deriving Repr, DecidableEq

/-- `path.with_suffix(s)`. -/
def FPath.with_suffix (p : FPath) (s : String) : FPath := { p with suffix := s }

structure State where
  path : FPath
  version : Int := 1
  providers : List (String × ProviderState) := []
  lru_limit : Int
  deriving Repr, DecidableEq

/-- `DEFAULT_LRU_LIMIT`. -/
def DEFAULT_LRU_LIMIT : Int := 5000

/-- Insert-or-replace for an insertion-ordered dict (replace keeps the key's
position, a fresh key is appended — CPython dict semantics). -/
def dictSet {κ α : Type} [DecidableEq κ] (d : List (κ × α)) (k : κ) (v : α) : List (κ × α) :=
  match d with
  | [] => [(k, v)]
  | (k', v') :: rest => if k' = k then (k, v) :: rest else (k', v') :: dictSet rest k v

/-- Remove a key's (first) entry from an insertion-ordered dict. -/
def dictRemove {κ α : Type} [DecidableEq κ] (d : List (κ × α)) (k : κ) : List (κ × α) :=
  match d with
  | [] => []
  | (k', v') :: rest => if k' = k then rest else (k', v') :: dictRemove rest k

/-- Provider key used by `State`: `str(event.get("provider", "")).strip() or "unknown"`. -/
def providerKey (e : Event) : String :=
  let p := pyStrip (e.provider.getD "")
  if p = "" then "unknown" else p

/-- Event id used by `State`: `str(event.get("id", "")).strip()`. -/
def eidOf (e : Event) : String := pyStrip (e.id.getD "")

/-- `State._prov(name)`: get-or-create the provider record. Note this is a
*mutating* get: a missing provider is inserted into the mapping. -/
def State.prov (s : State) (name : String) : ProviderState × State :=
  match s.providers.lookup name with
  | some ps => (ps, s)
  | none => ({}, { s with providers := s.providers ++ [(name, {})] })

/-- `State.is_new(event)`. The returned `State` is the store after the call:
the Python method can mutate `providers` through `_prov`. -/
def State.is_new (s : State) (e : Event) : Bool × State :=
  let eid := eidOf e
  if eid = "" then (true, s)
  else
    let (ps, s') := s.prov (providerKey e)
    (!(ps.ids.contains eid), s')

/-- One step of the first loop of `State.update_with`: add the event's id to
its provider's LRU and fold the event into the per-provider max-`updated`
dict. -/
def State.updateLoopStep (acc : State × List (String × Option String)) (e : Event) :
    State × List (String × Option String) :=
  let (st, d) := acc
  let provider := providerKey e
  let eid := eidOf e
  let updated := e.updated
  let (ps, st1) := st.prov provider
  let st2 :=
    if eid ≠ "" then
      { st1 with providers := dictSet st1.providers provider (ps.add_id eid st1.lru_limit) }
    else st1
  let prev : Option String := (d.lookup provider).join
  let d2 := dictSet d provider (if isNewer updated prev then updated else prev)
  (st2, d2)

/-- One step of the watermark loop of `State.update_with`. -/
def State.watermarkStep (st : State) (pm : String × Option String) : State :=
  if pyTruthyStr pm.2 then
    let (ps, st1) := st.prov pm.1
    { st1 with providers := dictSet st1.providers pm.1 (ps.consider_updated pm.2) }
  else st

/-- `State.update_with(events)`: add each id to its provider LRU, then apply
the per-provider max `updated` as the watermark. -/
def State.update_with (s : State) (events : List Event) : State :=
  let (s1, d) := events.foldl State.updateLoopStep (s, [])
  d.foldl State.watermarkStep s1

/-! ### state.py: persistence (JSON values, disk files, load/save) -/

/-- A parsed JSON value (`json.loads` output). Numbers are modelled as `Int`:
the state serializer only ever emits integers, and no claim involves float
JSON fields. -/
inductive Json where
  | null
  | bool (b : Bool)
  | num (n : Int)
  | str (s : String)
  | arr (xs : List Json)
  | obj (kvs : List (String × Json))
  deriving Repr

/-- Lookup in a JSON object (`data.get(k)` when `data` is a dict). -/
def Json.get : Json → String → Option Json
  | .obj kvs, k => kvs.lookup k
  | _, _ => none

/-- Python truthiness of a JSON value. -/
def Json.truthy : Json → Bool
  | .null => false
  | .bool b => b
  | .num n => n ≠ 0
  | .str s => s ≠ ""
  | .arr xs => !xs.isEmpty
  | .obj kvs => !kvs.isEmpty

/-- Python `int(x)` on a JSON value; `none` models a raised exception. -/
def pyIntOfJson : Json → Option Int
  | .num n => some n
  | .bool b => some (if b then 1 else 0)
  | .str s => pyInt s
  | _ => none

/-- A file's contents, represented by its `json.loads` outcome. -/
inductive DiskFile where
  | invalid (raw : String)
  | valid (j : Json)
  deriving Repr

/-- The filesystem restricted to the files `state.py` touches. -/
abbrev FS := List (FPath × DiskFile)

def fsGet (fs : FS) (p : FPath) : Option DiskFile := fs.lookup p

def fsSet (fs : FS) (p : FPath) (f : DiskFile) : FS := dictSet fs p f

def fsRemove (fs : FS) (p : FPath) : FS := dictRemove fs p

/-- The JSON object serialized for one provider by `State.to_dict()`. -/
def providerToJson (ps : ProviderState) : Json :=
  .obj [("ids", .arr (ps.ids.map Json.str)),
        ("last_updated",
         match ps.last_updated with
         | some w => .str w
         | none => .null)]

/-- `State.to_dict()`. -/
def State.to_dict (s : State) : Json :=
  .obj
    [("version", .num s.version),
     ("lru_limit", .num s.lru_limit),
     ("providers", .obj (s.providers.map fun np => (np.1, providerToJson np.2)))]

/-- `State.save()`: write `to_dict` JSON to `path.with_suffix(".json.tmp")`,
then atomically `replace()` it over `path`. `json.dumps` always succeeds on
`to_dict` output, so the written file is `valid`. -/
def State.save (s : State) (fs : FS) : FS :=
  let tmp := s.path.with_suffix ".json.tmp"
  let fs1 := fsSet fs tmp (.valid s.to_dict)
  fsSet (fsRemove fs1 tmp) s.path (.valid s.to_dict)

/-- `cls(path=path)`: a fresh empty store; `lru_limit` comes from
`_env_lru_limit()`, passed in here as `envLru` (the environment resolved at
call time). -/
def freshState (p : FPath) (envLru : Int) : State :=
  { path := p, version := 1, providers := [], lru_limit := envLru }

/-- Decode one provider entry of the `providers` object: `obj.get("ids") or []`
with an `isinstance(list)` guard and a string filter, and `last_updated` kept
only when it is a string. Raises (`none`) when the entry is not a dict. -/
def decodeProvider (v : Json) : Option ProviderState :=
  match v with
  | .obj _ =>
    let idsJ := match v.get "ids" with
      | some x => if x.truthy then x else .arr []
      | none => .arr []
    let ids : List String :=
      match idsJ with
      | .arr xs => xs.filterMap fun x => match x with | .str s => some s | _ => none
      | _ => []
    let last_updated : Option String :=
      match v.get "last_updated" with
      | some (.str s) => some s
      | _ => none
    some { ids := ids, last_updated := last_updated }
  | _ => none

/-- The `for name, obj in providers_raw.items()` loop of `State.load`. -/
def decodeProviders : List (String × Json) → Option (List (String × ProviderState))
  | [] => some []
  | (n, v) :: rest => do
    let ps ← decodeProvider v
    let tail ← decodeProviders rest
    some ((n, ps) :: tail)

/-- The body of the `try:` block of `State.load` on a successfully parsed
JSON value; `none` models an exception escaping to the `except` handler. -/
def decodeState (envLru : Int) (p : FPath) (data : Json) : Option State :=
  match data with
  | .obj kvs => do
    let version ← pyIntOfJson ((data.get "version").getD (.num 1))
    let providersRaw := (data.get "providers").getD (.obj [])
    let provKvs ← match providersRaw with
      | .obj pk => some pk
      | _ => none
    let providers ← decodeProviders provKvs
    let lru_limit ← if (kvs.lookup "lru_limit").isSome then
        pyIntOfJson ((data.get "lru_limit").getD .null)
      else
        some envLru
    some { path := p, version := version, providers := providers, lru_limit := lru_limit }
  | _ => none

/-- Rename the file at `p` aside to `p.with_suffix(".json.bak")`. -/
def renameAside (fs : FS) (p : FPath) : FS :=
  match fsGet fs p with
  | some f => fsSet (fsRemove fs p) (p.with_suffix ".json.bak") f
  | none => fs

/-- `State.load(path)`: missing file → fresh empty state; corrupt or
undecodable file → back it up (best effort) and start fresh. Returns the
loaded state together with the (possibly renamed-in) filesystem. Total —
the Python method catches every exception of the decode path. -/
def State.load (envLru : Int) (fs : FS) (p : FPath) : State × FS :=
  match fsGet fs p with
  | none => (freshState p envLru, fs)
  | some (.invalid _) => (freshState p envLru, renameAside fs p)
  | some (.valid j) =>
    match decodeState envLru p j with
    | some st => (st, fs)
    | none => (freshState p envLru, renameAside fs p)

/-! ### settings.py: the configuration objects the core consumes -/

structure RoutingConfig where
  force_group : Option String := none
  fallback_to_default : Bool := true
  merge : List (String × String) := []
  drop_groups : List String := []

structure GlobalThresholds where
  min_severity : Option String := none

structure EarthquakeThresholds where
  min_magnitude : Rat := 9/2
  max_depth_km : Rat := 700

structure WeatherThresholds where
  wind_gust_mps : Option Rat := none
  rainfall_mm_hr : Option Rat := none
  include_events : List String := []
  exclude_events : List String := []

structure Thresholds where
  global_ : GlobalThresholds := {}
  earthquake : Option EarthquakeThresholds := none
  weather : Option WeatherThresholds := none

/-- The AOI as validated by `AppConfig` (GeoJSON Polygon/MultiPolygon whose
rings are lists of coordinate pairs); `other` stands for a dict of any other
shape, which `_aoi_contains` rejects. -/
abbrev Ring := List (Rat × Rat)

inductive Aoi where
  | polygon (rings : List Ring)
  | multiPolygon (polys : List (List Ring))
  | other

structure ProvidersConfig where
  nws : Bool := true
  usgs : Bool := true

/-- `AppConfig`. Note: there is deliberately *no* `no_html` field here —
`settings.py` does not define one, which is what makes `pipeline.run`'s
`settings.app.no_html` read raise `AttributeError` (see `Pipeline.run`). -/
structure AppConfig where
  log_level : String := "INFO"
  aoi : Option Aoi := none
  providers : ProvidersConfig := {}
  routing : RoutingConfig := {}

structure EmailConfig where
  user : Option String := none
  app_password : Option String := none

/-- `EmailConfig.is_configured`: `bool(self.user and self.app_password)`. -/
def EmailConfig.is_configured (c : EmailConfig) : Bool :=
  pyTruthyStr c.user && pyTruthyStr c.app_password

structure SPaths where
  state_file : FPath

/-- `Settings` (the fields the embedded core reads). `recipients` is the
routing-key → email-list mapping with `get(key, default)` access. -/
structure Settings where
  paths : SPaths
  app : AppConfig := {}
  thresholds : Thresholds := {}
  recipients : List (String × List String) := []
  email : EmailConfig := {}

/-- `Recipients.get(key, default or [])`. -/
def recipientsGet (r : List (String × List String)) (key : String) : List String :=
  (r.lookup key).getD []

/-! ### rules.py: geo helpers -/

/-- `_is_number(x)`: int/float but not bool. -/
def isNumberPV : PropV → Bool
  | .pnum _ => true
  | _ => false

def isNumberGV : GVal → Bool
  | .num _ => true
  | _ => false

/-- `_as_point_from_geometry(geom)`: a representative `(lon, lat)`; `none`
also covers the Python `None`/non-dict/empty-dict early exit. -/
def asPointFromGeometry (geom : Option Geom) : Option (Rat × Rat) :=
  match geom with
  | none => none
  | some g =>
    let coords := g.coordinates
    if g.gtype = some "Point" then
      match coords with
      | some (.list (c0 :: c1 :: _)) =>
        match c0, c1 with
        | .num lon, .num lat => some (lon, lat)
        | _, _ => none
      | _ => none
    else if g.gtype = some "Polygon" then
      match coords with
      | some (.list ((.list (first :: _)) :: _)) =>
        match first with
        | .list (c0 :: c1 :: _) =>
          match c0, c1 with
          | .num lon, .num lat => some (lon, lat)
          | _, _ => none
        | _ => none
      | _ => none
    else if g.gtype = some "MultiPolygon" then
      match coords with
      | some (.list ((.list ((.list (first :: _)) :: _)) :: _)) =>
        match first with
        | .list (c0 :: c1 :: _) =>
          match c0, c1 with
          | .num lon, .num lat => some (lon, lat)
          | _, _ => none
        | _ => none
      | _ => none
    else none

/-- The epsilon guard of the ray-casting test (`1e-15`, exact here). -/
def rayEps : Rat := 1 / 10 ^ 15

/-- `_point_in_ring(pt, ring)`: ray casting over one ring. -/
def pointInRing (pt : Rat × Rat) (ring : Ring) : Bool :=
  let x := pt.1
  let y := pt.2
  let n := ring.length
  if n < 3 then false
  else
    (List.range n).foldl
      (fun inside i =>
        let p1 := ring.getD i (0, 0)
        let p2 := ring.getD ((i + 1) % n) (0, 0)
        let intersects :=
          (decide (p1.2 > y) != decide (p2.2 > y)) &&
            decide (x < (p2.1 - p1.1) * (y - p1.2) / (p2.2 - p1.2 + rayEps) + p1.1)
        if intersects then !inside else inside)
      false

/-- `_point_in_polygon(pt, polygon_coords)`: inside the outer ring and in no
hole. -/
def pointInPolygon (pt : Rat × Rat) (polygonCoords : List Ring) : Bool :=
  match polygonCoords with
  | [] => false
  | outer :: holes =>
    if !pointInRing pt outer then false
    else !holes.any (pointInRing pt)

/-- `_point_in_multipolygon(pt, multipoly_coords)`. -/
def pointInMultipolygon (pt : Rat × Rat) (multi : List (List Ring)) : Bool :=
  multi.any (pointInPolygon pt)

/-- `_aoi_contains(aoi, pt)`; malformed AOI → `False`. -/
def aoiContains (aoi : Aoi) (pt : Rat × Rat) : Bool :=
  match aoi with
  | .polygon rings => pointInPolygon pt rings
  | .multiPolygon polys => pointInMultipolygon pt polys
  | .other => false

/-- `_in_aoi(e, aoi)`: no AOI or no usable geometry → pass. -/
def inAoi (e : Event) (aoi : Option Aoi) : Bool :=
  match aoi with
  | none => true
  | some a =>
    match asPointFromGeometry e.geometry with
    | none => true
    | some pt => aoiContains a pt

/-! ### rules.py: provider adapters and threshold checks -/

/-- `_as_earthquake_values(e)`: `(magnitude, depth_km)`. -/
def asEarthquakeValues (e : Event) : Option Rat × Option Rat :=
  let props := e.properties
  let mag := pvGetD props "mag" (pvGetD props "magnitude" .pnull)
  let depth := pvGetD props "depth_km" (pvGetD props "depth" .pnull)
  -- `if depth is None:` fall back to the geometry's third coordinate
  let depth' : PropV :=
    if depth = .pnull then
      match e.geometry with
      | some g =>
        match g.coordinates with
        | some (.list (_ :: _ :: (.num z) :: _)) => .pnum z
        | _ => .pnull
      | none => .pnull
    else depth
  (match mag with | .pnum q => some q | _ => none,
   match depth' with | .pnum q => some q | _ => none)

/-- `_as_weather_values(e)`: `(wind_gust_mps, rainfall_mm_hr)`, numeric only. -/
def asWeatherValues (e : Event) : Option Rat × Option Rat :=
  let props := e.properties
  let gust := pvGetD props "wind_gust_mps" .pnull
  let rain := pvGetD props "rainfall_mm_hr" .pnull
  (match gust with | .pnum q => some q | _ => none,
   match rain with | .pnum q => some q | _ => none)

/-- `_SEV_RANK`. -/
def SEV_RANK : List (String × Nat) :=
  [("none", 0), ("minor", 1), ("moderate", 2), ("severe", 3), ("extreme", 4)]

/-- `_severity_rank(s)`: unknown/non-string severities rank 0. -/
def severityRank (s : Option String) : Nat :=
  match s with
  | none => 0
  | some str => (SEV_RANK.lookup (pyLower (pyStrip str))).getD 0

/-- `_passes_global_severity(e, thresholds)`. -/
def passesGlobalSeverity (e : Event) (thresholds : Thresholds) : Bool :=
  match thresholds.global_.min_severity with
  | none => true
  | some ms =>
    if ms = "" then true
    else severityRank e.severity ≥ severityRank (some ms)

/-- `_passes_earthquake_thresholds(e, thr)`. The pydantic schema makes
`min_magnitude`/`max_depth_km` non-optional floats, so the Python
`is not None` guards on them are always true. -/
def passesEarthquakeThresholds (e : Event) (thr : Option EarthquakeThresholds) : Bool :=
  match thr with
  | none => true
  | some t =>
    let vals := asEarthquakeValues e
    let magOk := match vals.1 with
      | some mag => !(mag < t.min_magnitude)
      | none => true
    let depthOk := match vals.2 with
      | some depth => !(depth > t.max_depth_km)
      | none => true
    magOk && depthOk

/-- `_weather_event_text(e)`: prefer `properties.event`, else `title`, else
`""`, stripped. -/
def weatherEventText (e : Event) : String :=
  let ev := pvGetD e.properties "event" .pnull
  let s :=
    if pvTruthy ev then pvStr ev
    else match e.title with
      | some t => if t ≠ "" then t else ""
      | none => ""
  pyStrip s

/-- `_matches_any(patterns, text)`: case-insensitive substring match. -/
def matchesAny (patterns : List String) (text : String) : Bool :=
  let t := pyLower text
  patterns.any fun pat => pat ≠ "" && pyIn (pyLower pat) t

/-- `_passes_weather_thresholds(e, thr)`: categorical include/exclude, then
numeric gates that only apply when numeric data is present. -/
def passesWeatherThresholds (e : Event) (thr : Option WeatherThresholds) : Bool :=
  match thr with
  | none => true
  | some t =>
    let evt := weatherEventText e
    if t.include_events ≠ [] && !matchesAny t.include_events evt then false
    else if t.exclude_events ≠ [] && matchesAny t.exclude_events evt then false
    else
      let vals := asWeatherValues e
      let gustOk := match t.wind_gust_mps, vals.1 with
        | some thrG, some gust => !(gust < thrG)
        | _, _ => true
      let rainOk := match t.rainfall_mm_hr, vals.2 with
        | some thrR, some rain => !(rain < thrR)
        | _, _ => true
      gustOk && rainOk

/-- `_passes_thresholds(e, thresholds)`: provider-specific gates; unknown
providers pass. -/
def passesThresholds (e : Event) (thresholds : Thresholds) : Bool :=
  let prov := pyLower (e.provider.getD "")
  if prov = "usgs" && !passesEarthquakeThresholds e thresholds.earthquake then false
  else if prov = "nws" && !passesWeatherThresholds e thresholds.weather then false
  else true

/-- `filter_events(events, thresholds, aoi)`: order-preserving conjunction of
the three gates. -/
def filter_events (events : List Event) (thresholds : Thresholds) (aoi : Option Aoi) :
    List Event :=
  events.filter fun e =>
    passesGlobalSeverity e thresholds && passesThresholds e thresholds && inAoi e aoi

/-! ### pipeline.py -/

/-- Exceptions the embedded pipeline can raise. -/
inductive PyErr where
  | runtimeMissingKeys (i : Nat)   -- `_collect_events`: event lacks `id`/`provider`
  | attrNoHtml                     -- `run`: `settings.app.no_html` — AppConfig has no such field
  | runtimeEmailNotConfigured      -- `Settings.require_email`
  deriving Repr, DecidableEq

/-- `_collect_events` (given the fetched events — the HTTP fetch itself is an
external collaborator): raise on a missing `id`/`provider` key, then fill the
normalization defaults. Non-dict entries cannot be represented (every `Event`
is a dict), so the skip branch is vacuous here. -/
def collectEventsGo (i : Nat) : List Event → Except PyErr (List Event)
  | [] => .ok []
  | e :: rs =>
    if e.id.isNone || e.provider.isNone then .error (.runtimeMissingKeys i)
    else do
      let e' := { e with
        routing_key := some (e.routing_key.getD "default"),
        title := some (e.title.getD "") }
      let out ← collectEventsGo (i + 1) rs
      .ok (e' :: out)

def collectEvents (fetched : List Event) : Except PyErr (List Event) :=
  collectEventsGo 0 fetched

/-- `_apply_rules`. -/
def applyRules (events : List Event) (thresholds : Thresholds) (aoi : Option Aoi) :
    List Event :=
  filter_events events thresholds aoi

/-- `_only_new(events, state)`: keep events `state.is_new` accepts. Mirrors
the Python list comprehension, threading the store through the successive
`is_new` calls (which can lazily insert provider records). Returns the kept
events and the store after the calls. -/
def onlyNew (events : List Event) (state : State) : List Event × State :=
  match events with
  | [] => ([], state)
  | e :: rest =>
    let (b, state') := state.is_new e
    let (kept, state'') := onlyNew rest state'
    (if b then e :: kept else kept, state'')

/-! #### Routing -/

/-- `force_group = cfg.force_group.strip() if cfg.force_group else None`,
then the guard `force_group and force_group.lower() != "default"`: the
resulting forced key, when meaningful. -/
def forcedKeyOf (cfg : RoutingConfig) : Option String :=
  match cfg.force_group with
  | none => none
  | some raw =>
    if raw = "" then none   -- falsy cfg.force_group
    else
      let f := pyStrip raw
      if f ≠ "" && pyLower f ≠ "default" then some f else none

/-- The routing key assigned to one event by the loop body of
`_group_by_routing_key` (`none` = dropped): forced key or own key, drop
check on that resolved key, then a single merge hop when not forced. -/
def keyFor (cfg : RoutingConfig) (e : Event) : Option String :=
  let key :=
    match forcedKeyOf cfg with
    | some f => f
    | none =>
      match e.routing_key with
      | some rk => if pyStrip rk ≠ "" then pyStrip rk else "default"
      | none => "default"
  if cfg.drop_groups.contains key then none
  else if (forcedKeyOf cfg).isSome then some key
  else some ((cfg.merge.lookup key).getD key)

/-- Append an event to a `defaultdict(list)` grouping. -/
def groupAppend (g : List (String × List Event)) (k : String) (e : Event) :
    List (String × List Event) :=
  match g with
  | [] => [(k, [e])]
  | (k', evs) :: rest =>
    if k' = k then (k, evs ++ [e]) :: rest else (k', evs) :: groupAppend rest k e

/-- `_group_by_routing_key(events, settings)`. -/
def groupByRoutingKey (events : List Event) (settings : Settings) :
    List (String × List Event) :=
  let cfg := settings.app.routing
  events.foldl
    (fun groups e =>
      match keyFor cfg e with
      | none => groups
      | some k => groupAppend groups k e)
    []

/-- The event's own routing key (the router's step 2, used to state the
routing claims): the stripped `routingKey` when nonempty, else `"default"`. -/
def ownKeyOf (e : Event) : String :=
  match e.routing_key with
  | some rk => if pyStrip rk ≠ "" then pyStrip rk else "default"
  | none => "default"

/-- `_recipients_for_key(settings, key)`. -/
def recipientsForKey (settings : Settings) (key : String) : List String :=
  let recips := recipientsGet settings.recipients key
  if recips ≠ [] then recips
  else if key ≠ "default" && settings.app.routing.fallback_to_default then
    recipientsGet settings.recipients "default"
  else []

/-- `Settings.require_email()`. -/
def requireEmail (settings : Settings) : Except PyErr Unit :=
  if settings.email.is_configured then .ok () else .error .runtimeEmailNotConfigured

/-- `_dispatch_emails(settings, grouped)`: one send per non-empty group with
resolvable recipients; returns `(groups_sent, events_notified, sent_events)`.
Message building and the SMTP transport are external collaborators; a send
is modelled as always succeeding. -/
def dispatchEmails (settings : Settings) (grouped : List (String × List Event)) :
    Except PyErr (Nat × Nat × List Event) := do
  _ ← requireEmail settings
  .ok <| grouped.foldl
    (fun (acc : Nat × Nat × List Event) kv =>
      let (key, evs) := kv
      if evs.isEmpty then acc
      else if (recipientsForKey settings key).isEmpty then acc
      else (acc.1 + 1, acc.2.1 + evs.length, acc.2.2 ++ evs))
    (0, 0, [])

/-- `pipeline.run(settings)`, given the externally fetched events and the
filesystem holding the state file. Returns the notified-event count and the
filesystem after the run.

Faithful to `pipeline.py` as it stands: after fetching and rule filtering,
line 256 evaluates `settings.app.no_html`, but `AppConfig` (settings.py)
defines no `no_html` field and pydantic v2 models reject unknown attribute
access, so the read raises `AttributeError` *outside* the `try` block that
guards map generation. Every run whose filtered event list is non-empty
therefore raises before the dedup/route/dispatch/commit stages; those stages
(`State.load` … `State.save`) are dead code in `run` and are embedded above
as standalone operations. -/
def run (settings : Settings) (fetched : List Event) (fs : FS) :
    Except PyErr (Nat × FS) := do
  let events ← collectEvents fetched
  if events.isEmpty then return (0, fs)
  let events := applyRules events settings.thresholds settings.app.aoi
  if events.isEmpty then return (0, fs)
  .error .attrNoHtml

/-! ### Derived observers used to state the claims -/

/-- The watermark currently stored for provider `p` (absent provider or
absent watermark both read as `none`). -/
def wmOf (s : State) (p : String) : Option String :=
  (s.providers.lookup p).bind ProviderState.last_updated

/-- The parsed-timestamp ordering on watermark values used by the spec:
`null`/unparseable is strictly smaller than any valid timestamp; valid
timestamps compare by their parsed tuples. -/
def parsedLe (a b : Option String) : Bool :=
  match parseIso8601 a, parseIso8601 b with
  | none, _ => true
  | some _, none => false
  | some x, some y => decide (x = y) || t6Lt x y

/-! ## Lemma layer -/

section DictLemmas

variable {κ α : Type} [DecidableEq κ]

theorem lookup_cons_self (k : κ) (v : α) (l : List (κ × α)) :
    ((k, v) :: l).lookup k = some v := by
  simp [List.lookup]

theorem lookup_cons_ne (k k' : κ) (v : α) (l : List (κ × α)) (h : k' ≠ k) :
    ((k, v) :: l).lookup k' = l.lookup k' := by
  simp [List.lookup, beq_eq_false_iff_ne.mpr h]

theorem lookup_dictSet_self (d : List (κ × α)) (k : κ) (v : α) :
    (dictSet d k v).lookup k = some v := by
  induction d with
  | nil => simp [dictSet, lookup_cons_self]
  | cons hd tl ih =>
    obtain ⟨k', v'⟩ := hd
    by_cases h : k' = k
    · simp [dictSet, h, lookup_cons_self]
    · rw [dictSet, if_neg h, lookup_cons_ne _ _ _ _ (fun hh => h hh.symm)]
      exact ih

theorem lookup_dictSet_ne (d : List (κ × α)) (k : κ) (v : α) (k' : κ) (h : k' ≠ k) :
    (dictSet d k v).lookup k' = d.lookup k' := by
  induction d with
  | nil => simp [dictSet, List.lookup, beq_eq_false_iff_ne.mpr h]
  | cons hd tl ih =>
    obtain ⟨k'', v''⟩ := hd
    by_cases h2 : k'' = k
    · subst h2
      rw [dictSet, if_pos rfl, lookup_cons_ne _ _ _ _ h, lookup_cons_ne _ _ _ _ h]
    · rw [dictSet, if_neg h2]
      by_cases h3 : k' = k''
      · subst h3
        rw [lookup_cons_self, lookup_cons_self]
      · rw [lookup_cons_ne _ _ _ _ h3, lookup_cons_ne _ _ _ _ h3]
        exact ih

theorem lookup_append_single_self (l : List (κ × α)) (k : κ) (v : α)
    (h : l.lookup k = none) : (l ++ [(k, v)]).lookup k = some v := by
  induction l with
  | nil => simp [lookup_cons_self]
  | cons hd tl ih =>
    obtain ⟨k', v'⟩ := hd
    by_cases hk : k = k'
    · subst hk
      rw [lookup_cons_self] at h
      exact absurd h (by simp)
    · rw [lookup_cons_ne _ _ _ _ hk] at h
      rw [List.cons_append, lookup_cons_ne _ _ _ _ hk]
      exact ih h

theorem lookup_append_single_ne (l : List (κ × α)) (k q : κ) (v : α) (hq : q ≠ k) :
    (l ++ [(k, v)]).lookup q = l.lookup q := by
  induction l with
  | nil => simp [List.lookup, beq_eq_false_iff_ne.mpr hq]
  | cons hd tl ih =>
    obtain ⟨k', v'⟩ := hd
    by_cases hk : q = k'
    · subst hk
      rw [List.cons_append, lookup_cons_self, lookup_cons_self]
    · rw [List.cons_append, lookup_cons_ne _ _ _ _ hk, lookup_cons_ne _ _ _ _ hk]
      exact ih

end DictLemmas

section StateLemmas

/-- `_prov` preserves every scalar field of the store. -/
theorem prov_fields (s : State) (n : String) :
    (s.prov n).2.path = s.path ∧ (s.prov n).2.version = s.version ∧
      (s.prov n).2.lru_limit = s.lru_limit := by
  unfold State.prov
  cases s.providers.lookup n <;> simp

/-- `_prov` returns the stored record when the provider exists. -/
theorem prov_of_lookup_some (s : State) (n : String) (ps : ProviderState)
    (h : s.providers.lookup n = some ps) : s.prov n = (ps, s) := by
  simp [State.prov, h]

/-- `_prov` lazily inserts an empty record when the provider is missing. -/
theorem prov_of_lookup_none (s : State) (n : String)
    (h : s.providers.lookup n = none) :
    s.prov n = ({}, { s with providers := s.providers ++ [(n, {})] }) := by
  simp [State.prov, h]

/-- After `_prov`, the queried provider's record is present and is the one
returned. -/
theorem lookup_after_prov (s : State) (n : String) :
    (s.prov n).2.providers.lookup n = some (s.prov n).1 := by
  cases h : s.providers.lookup n with
  | some ps => rw [prov_of_lookup_some s n ps h]; exact h
  | none =>
    rw [prov_of_lookup_none s n h]
    exact lookup_append_single_self _ _ _ h

/-- `_prov` does not change other providers' records. -/
theorem lookup_after_prov_ne (s : State) (n q : String) (hq : q ≠ n) :
    (s.prov n).2.providers.lookup q = s.providers.lookup q := by
  cases h : s.providers.lookup n with
  | some ps => rw [prov_of_lookup_some s n ps h]
  | none =>
    rw [prov_of_lookup_none s n h]
    exact lookup_append_single_ne _ _ _ _ hq

end StateLemmas

section UpdateFrameLemmas

/-- The id-loop of `update_with` never changes `path`/`version`/`lru_limit`. -/
theorem updateLoopStep_fields (acc : State × List (String × Option String)) (e : Event) :
    (State.updateLoopStep acc e).1.path = acc.1.path ∧
      (State.updateLoopStep acc e).1.version = acc.1.version ∧
      (State.updateLoopStep acc e).1.lru_limit = acc.1.lru_limit := by
  obtain ⟨st, d⟩ := acc
  have hp := prov_fields st (providerKey e)
  unfold State.updateLoopStep
  by_cases h : eidOf e ≠ "" <;>
    simp only [h, if_true, if_false, ite_true, ite_false, Bool.false_eq_true] <;>
    simp_all

theorem updateLoop_fold_fields (evs : List Event) (acc : State × List (String × Option String)) :
    (evs.foldl State.updateLoopStep acc).1.path = acc.1.path ∧
      (evs.foldl State.updateLoopStep acc).1.version = acc.1.version ∧
      (evs.foldl State.updateLoopStep acc).1.lru_limit = acc.1.lru_limit := by
  induction evs generalizing acc with
  | nil => exact ⟨rfl, rfl, rfl⟩
  | cons e rest ih =>
    have h1 := updateLoopStep_fields acc e
    have h2 := ih (State.updateLoopStep acc e)
    rw [List.foldl_cons]
    exact ⟨h2.1.trans h1.1, h2.2.1.trans h1.2.1, h2.2.2.trans h1.2.2⟩

theorem watermarkStep_fields (st : State) (pm : String × Option String) :
    (State.watermarkStep st pm).path = st.path ∧
      (State.watermarkStep st pm).version = st.version ∧
      (State.watermarkStep st pm).lru_limit = st.lru_limit := by
  have hp := prov_fields st pm.1
  unfold State.watermarkStep
  by_cases h : pyTruthyStr pm.2 <;> simp_all

theorem watermark_fold_fields (d : List (String × Option String)) (st : State) :
    (d.foldl State.watermarkStep st).path = st.path ∧
      (d.foldl State.watermarkStep st).version = st.version ∧
      (d.foldl State.watermarkStep st).lru_limit = st.lru_limit := by
  induction d generalizing st with
  | nil => exact ⟨rfl, rfl, rfl⟩
  | cons pm rest ih =>
    have h1 := watermarkStep_fields st pm
    have h2 := ih (State.watermarkStep st pm)
    rw [List.foldl_cons]
    exact ⟨h2.1.trans h1.1, h2.2.1.trans h1.2.1, h2.2.2.trans h1.2.2⟩

/-- `update_with` never changes `path`/`version`/`lru_limit`. -/
theorem update_with_fields (s : State) (evs : List Event) :
    (s.update_with evs).path = s.path ∧ (s.update_with evs).version = s.version ∧
      (s.update_with evs).lru_limit = s.lru_limit := by
  unfold State.update_with
  have h1 := updateLoop_fold_fields evs (s, [])
  have h2 := watermark_fold_fields (evs.foldl State.updateLoopStep (s, [])).2
    (evs.foldl State.updateLoopStep (s, [])).1
  exact ⟨h2.1.trans h1.1, h2.2.1.trans h1.2.1, h2.2.2.trans h1.2.2⟩

end UpdateFrameLemmas

/-! ## Claim C7 -/

/-- C7: `isNew` returns true iff the event has no usable id (absent or
empty/whitespace-only, which cannot be deduped safely) or its id is not a
member of its provider's `seenIds` list. -/
theorem is_new_iff (s : State) (e : Event) :
    (s.is_new e).1 = true ↔
      (eidOf e = "" ∨
        eidOf e ∉ ((s.providers.lookup (providerKey e)).map ProviderState.ids).getD []) := by
  unfold State.is_new
  by_cases h : eidOf e = ""
  · simp [h]
  · cases hl : s.providers.lookup (providerKey e) with
    | some ps =>
      rw [prov_of_lookup_some s _ ps hl]
      simp [h, List.elem_iff]
    | none =>
      rw [prov_of_lookup_none s _ hl]
      simp [h]

/-! ## Claim C1 -/

/-- C1 counterexample: on a store that has never seen provider `"usgs"`,
`is_new` for an event of that provider *does* change the `State`: `_prov`
lazily inserts an empty provider record into the `providers` mapping. -/
theorem is_new_mutates_on_unseen_provider :
    ((State.mk ⟨"state", ".json"⟩ 1 [] 5000).is_new
        { id := some "x", provider := some "usgs" }).2 ≠
      State.mk ⟨"state", ".json"⟩ 1 [] 5000 := by decide

/-- C1 amended: `is_new` never changes `path`, `version`, `lruLimit`, any
existing provider's record (`seenIds` list or watermark); for an event with
a usable id whose provider has no record yet it lazily inserts an *empty*
provider record (dedup-neutral), and otherwise it leaves the `State`
entirely unchanged. -/
theorem is_new_frame (s : State) (e : Event) :
    (s.is_new e).2.path = s.path ∧ (s.is_new e).2.version = s.version ∧
      (s.is_new e).2.lru_limit = s.lru_limit ∧
      (∀ q ps, s.providers.lookup q = some ps →
        (s.is_new e).2.providers.lookup q = some ps) ∧
      ((s.is_new e).2.providers = s.providers ∨
        (s.providers.lookup (providerKey e) = none ∧
          (s.is_new e).2.providers = s.providers ++ [(providerKey e, ProviderState.mk [] none)])) := by
  have hsnd : (s.is_new e).2 = if eidOf e = "" then s else (s.prov (providerKey e)).2 := by
    unfold State.is_new
    by_cases h : eidOf e = "" <;> simp [h]
  rw [hsnd]
  by_cases h : eidOf e = ""
  · simp [h]
  · rw [if_neg h]
    cases hl : s.providers.lookup (providerKey e) with
    | some ps =>
      rw [prov_of_lookup_some s _ ps hl]
      simp
    | none =>
      rw [prov_of_lookup_none s _ hl]
      refine ⟨rfl, rfl, rfl, ?_, .inr ⟨rfl, rfl⟩⟩
      intro q ps hq
      have hqn : q ≠ providerKey e := by
        intro hh
        rw [hh, hl] at hq
        exact absurd hq (by simp)
      exact (lookup_append_single_ne _ _ _ _ hqn).trans hq

/-- C1 amended, witness: a concrete store with an existing `"nws"` record
queried about an unseen `"usgs"` event keeps the `"nws"` record intact. -/
theorem is_new_frame_witness :
    ((State.mk ⟨"state", ".json"⟩ 1 [("nws", ProviderState.mk ["a"] none)] 5000).is_new
        { id := some "x", provider := some "usgs" }).2.providers.lookup "nws" =
      some (ProviderState.mk ["a"] none) :=
  (is_new_frame _ _).2.2.2.1 "nws" (ProviderState.mk ["a"] none) rfl

/-! ## Persistence lemmas -/

/-- After `save`, the state file holds exactly the serialized store. -/
theorem fsGet_save (st : State) (fs : FS) :
    fsGet (st.save fs) st.path = some (.valid st.to_dict) := by
  unfold State.save fsGet fsSet
  exact lookup_dictSet_self _ _ _

theorem filterMap_str_map (l : List String) :
    (l.map Json.str).filterMap (fun x => match x with | .str s => some s | _ => none) = l := by
  induction l with
  | nil => rfl
  | cons a t ih => simp [ih]

theorem filterMap_str_comp (t : List String) :
    t.filterMap ((fun x => match x with | Json.str s => some s | _ => none) ∘ Json.str) = t := by
  induction t with
  | nil => rfl
  | cons a l ih => simp_all

/-- Decoding inverts the provider serialization. -/
theorem decodeProvider_providerToJson (ps : ProviderState) :
    decodeProvider (providerToJson ps) = some ps := by
  obtain ⟨ids, lu⟩ := ps
  cases lu with
  | none =>
    cases ids with
    | nil => rfl
    | cons a t =>
      simp [providerToJson, decodeProvider, Json.get, Json.truthy, filterMap_str_map]
      exact ⟨filterMap_str_comp t, rfl⟩
  | some w =>
    cases ids with
    | nil => rfl
    | cons a t =>
      simp [providerToJson, decodeProvider, Json.get, Json.truthy, filterMap_str_map]
      exact ⟨filterMap_str_comp t, rfl⟩

theorem decodeProviders_map (l : List (String × ProviderState)) :
    decodeProviders (l.map fun np => (np.1, providerToJson np.2)) = some l := by
  induction l with
  | nil => rfl
  | cons hd tl ih =>
    obtain ⟨n, ps⟩ := hd
    simp [decodeProviders, decodeProvider_providerToJson, ih]

/-- Decoding inverts `to_dict` (the loaded store only differs in carrying the
load path). -/
theorem decodeState_to_dict (envLru : Int) (p : FPath) (st : State) :
    decodeState envLru p st.to_dict = some { st with path := p } := by
  obtain ⟨sp, v, provs, lru⟩ := st
  simp only [State.to_dict, decodeState, Json.get, List.lookup, pyIntOfJson]
  simp [decodeProviders_map, Option.bind]

/-! ## Claim C8 -/

/-- C8: `load` never raises (it is a total function): a missing state file
yields a fresh empty store with the unchanged filesystem; a file that fails
to parse as JSON is renamed aside to `<path>.json.bak` and a fresh empty
store is returned, whose subsequent `persist()` succeeds and leaves valid
JSON at the state path. -/
theorem load_recovery (fs : FS) (p : FPath) (envLru : Int) :
    (fsGet fs p = none → State.load envLru fs p = (freshState p envLru, fs)) ∧
    (∀ raw, fsGet fs p = some (.invalid raw) →
      State.load envLru fs p =
        (freshState p envLru,
         fsSet (fsRemove fs p) (p.with_suffix ".json.bak") (.invalid raw)) ∧
      fsGet ((freshState p envLru).save
          (fsSet (fsRemove fs p) (p.with_suffix ".json.bak") (.invalid raw))) p =
        some (.valid (freshState p envLru).to_dict)) := by
  constructor
  · intro h
    unfold State.load
    rw [h]
  · intro raw h
    refine ⟨?_, fsGet_save (freshState p envLru) _⟩
    unfold State.load
    rw [h]
    unfold renameAside
    rw [h]

/-- C8 witness: recovery on a concrete corrupt state file. -/
theorem load_recovery_witness :
    State.load 7 [(⟨"state", ".json"⟩, .invalid "oops")] ⟨"state", ".json"⟩ =
      (freshState ⟨"state", ".json"⟩ 7, [(⟨"state", ".json.bak"⟩, .invalid "oops")]) :=
  ((load_recovery [(⟨"state", ".json"⟩, .invalid "oops")] ⟨"state", ".json"⟩ 7).2 "oops" rfl).1

/-! ## Claim C2 -/

/-- `consider_updated` never touches the id list. -/
theorem consider_updated_ids (ps : ProviderState) (u : Option String) :
    (ps.consider_updated u).ids = ps.ids := by
  unfold ProviderState.consider_updated
  split <;> rfl

/-- The just-added id is a member of the LRU list whenever the cap is ≥ 1. -/
theorem mem_pyAddId (ids : List String) (eid : String) (lru : Int) (h : 1 ≤ lru) :
    eid ∈ pyAddId ids eid lru := by
  unfold pyAddId
  by_cases hh : ids.head? = some eid
  · rw [if_pos hh]
    cases ids with
    | nil => simp at hh
    | cons a t =>
      simp only [List.head?] at hh
      exact (Option.some_inj.mp hh) ▸ List.mem_cons_self a t
  · rw [if_neg hh]
    by_cases ht : ((eid :: ids.erase eid).length : Int) > lru
    · rw [if_pos ht]
      have h0 : (0 : Int) ≤ lru := le_trans (by norm_num) h
      have h1 : 1 ≤ lru.toNat := by omega
      unfold pySliceKeep
      rw [if_pos h0]
      have h2 : 1 ≤ min lru.toNat (eid :: ids.erase eid).length := by
        simp [List.length_cons]
        omega
      obtain ⟨m, hm⟩ := Nat.exists_eq_add_of_le h2
      rw [hm]
      simp [List.take_cons]
    · rw [if_neg ht]
      exact List.mem_cons_self _ _

/-- The watermark phase preserves the id list of every existing provider. -/
theorem watermark_fold_ids (d : List (String × Option String)) (st : State)
    (q : String) (ps : ProviderState) (h : st.providers.lookup q = some ps) :
    ∃ ps', (d.foldl State.watermarkStep st).providers.lookup q = some ps' ∧
      ps'.ids = ps.ids := by
  induction d generalizing st ps with
  | nil => exact ⟨ps, h, rfl⟩
  | cons pm rest ih =>
    obtain ⟨k, m⟩ := pm
    rw [List.foldl_cons]
    by_cases hw : pyTruthyStr m
    · by_cases hq : q = k
      · subst hq
        have hprov := prov_of_lookup_some st q ps h
        have hstep : State.watermarkStep st (q, m) =
            { st with providers := dictSet st.providers q (ps.consider_updated m) } := by
          unfold State.watermarkStep
          simp only
          rw [if_pos hw, hprov]
        rw [hstep]
        obtain ⟨ps', hl, hi⟩ :=
          ih { st with providers := dictSet st.providers q (ps.consider_updated m) }
            (ps.consider_updated m) (lookup_dictSet_self _ _ _)
        exact ⟨ps', hl, hi.trans (consider_updated_ids ps m)⟩
      · have hstep : (State.watermarkStep st (k, m)).providers.lookup q = some ps := by
          unfold State.watermarkStep
          simp only
          rw [if_pos hw]
          cases hpk : st.providers.lookup k with
          | some x =>
            rw [prov_of_lookup_some st k x hpk]
            exact (lookup_dictSet_ne _ _ _ _ hq).trans h
          | none =>
            rw [prov_of_lookup_none st k hpk]
            have h2 : (st.providers ++ [(k, ProviderState.mk [] none)]).lookup q = some ps :=
              (lookup_append_single_ne _ _ _ _ hq).trans h
            exact (lookup_dictSet_ne _ _ _ _ hq).trans h2
        exact ih _ ps hstep
    · have hstep : State.watermarkStep st (k, m) = st := by
        unfold State.watermarkStep
        simp only
        rw [if_neg hw]
      rw [hstep]
      exact ih st ps h

/-- After `update_with [e]` (single event with a usable id), the event's
provider record contains exactly the `add_id`-updated id list. -/
theorem update_with_singleton_ids (s : State) (e : Event) (h : eidOf e ≠ "") :
    ∃ ps, (s.update_with [e]).providers.lookup (providerKey e) = some ps ∧
      ps.ids = pyAddId ((s.prov (providerKey e)).1).ids (eidOf e) s.lru_limit := by
  unfold State.update_with
  rw [List.foldl_cons, List.foldl_nil]
  unfold State.updateLoopStep
  simp only [if_pos h, ne_eq, h, not_false_eq_true, ite_true, if_true]
  have hlru : (s.prov (providerKey e)).2.lru_limit = s.lru_limit :=
    (prov_fields s (providerKey e)).2.2
  have hl2 : ({ (s.prov (providerKey e)).2 with
        providers := dictSet (s.prov (providerKey e)).2.providers (providerKey e)
          ((s.prov (providerKey e)).1.add_id (eidOf e)
            (s.prov (providerKey e)).2.lru_limit) } : State).providers.lookup
        (providerKey e) =
      some ((s.prov (providerKey e)).1.add_id (eidOf e) (s.prov (providerKey e)).2.lru_limit) :=
    lookup_dictSet_self _ _ _
  obtain ⟨ps', hl, hi⟩ := watermark_fold_ids _
    { (s.prov (providerKey e)).2 with
      providers := dictSet (s.prov (providerKey e)).2.providers (providerKey e)
        ((s.prov (providerKey e)).1.add_id (eidOf e) (s.prov (providerKey e)).2.lru_limit) }
    _ _ hl2
  refine ⟨ps', hl, ?_⟩
  rw [hi]
  unfold ProviderState.add_id
  rw [hlru]

/-- C2 counterexample: the claim quantifies over *all* events, but an event
with no usable id is never committed (`update_with` skips empty ids) and
`isNew` deliberately treats it as always-new, so the round trip leaves it
new. -/
theorem dedup_roundtrip_fails_without_id :
    ((State.load 5000
        (((freshState ⟨"state", ".json"⟩ 5000).update_with
            [{ provider := some "usgs" }]).save [])
        ⟨"state", ".json"⟩).1.is_new { provider := some "usgs" }).1 = true := rfl

/-- C2 amended: for every event with a usable (nonempty after stripping) id,
committed to a store whose `lruLimit` is at least 1, `commit([e])` followed
by `persist()` and a fresh `load()` of the same path yields a store on which
`isNew(e)` is false. (Events without a usable id are treated as always-new
by design and are never committed, so the unrestricted claim fails; a
non-positive `lruLimit` would evict the id immediately.) -/
theorem dedup_roundtrip (s : State) (e : Event) (fs : FS) (envLru : Int)
    (h1 : eidOf e ≠ "") (h2 : 1 ≤ s.lru_limit) :
    ((State.load envLru ((s.update_with [e]).save fs) s.path).1.is_new e).1 = false := by
  have hpath : (s.update_with [e]).path = s.path := (update_with_fields s [e]).1
  have hget : fsGet ((s.update_with [e]).save fs) s.path =
      some (.valid (s.update_with [e]).to_dict) := by
    rw [← hpath]
    exact fsGet_save _ _
  have hdec := decodeState_to_dict envLru s.path (s.update_with [e])
  have hload : (State.load envLru ((s.update_with [e]).save fs) s.path).1 =
      { s.update_with [e] with path := s.path } := by
    simp only [State.load, hget, hdec]
  rw [hload]
  obtain ⟨ps, hps, hids⟩ := update_with_singleton_ids s e h1
  have hmem : eidOf e ∈ ps.ids := by
    rw [hids]
    exact mem_pyAddId _ _ _ h2
  have hiff := is_new_iff { s.update_with [e] with path := s.path } e
  rw [Bool.eq_false_iff]
  intro htrue
  rcases hiff.mp htrue with hempty | hnotmem
  · exact h1 hempty
  · rw [show ({ s.update_with [e] with path := s.path } : State).providers =
        (s.update_with [e]).providers from rfl, hps] at hnotmem
    simp at hnotmem
    exact hnotmem hmem

/-- C2 witness: a concrete committed event is no longer new after the
save/load round trip. -/
theorem dedup_roundtrip_witness :
    ((State.load 128
        (((State.mk ⟨"state", ".json"⟩ 1 [] 128).update_with
            [{ id := some "A1", provider := some "usgs",
               updated := some "2025-01-01T00:00:00Z" }]).save [])
        ⟨"state", ".json"⟩).1.is_new
      { id := some "A1", provider := some "usgs",
        updated := some "2025-01-01T00:00:00Z" }).1 = false :=
  dedup_roundtrip (State.mk ⟨"state", ".json"⟩ 1 [] 128)
    { id := some "A1", provider := some "usgs", updated := some "2025-01-01T00:00:00Z" }
    [] 128 (by decide) (by decide)

/-! ## Claim C5 -/

theorem t6Lt_eq_true_iff (a b : T6) :
    t6Lt a b = true ↔
      a.1 < b.1 ∨ (a.1 = b.1 ∧
        (a.2.1 < b.2.1 ∨ (a.2.1 = b.2.1 ∧
          (a.2.2.1 < b.2.2.1 ∨ (a.2.2.1 = b.2.2.1 ∧
            (a.2.2.2.1 < b.2.2.2.1 ∨ (a.2.2.2.1 = b.2.2.2.1 ∧
              (a.2.2.2.2.1 < b.2.2.2.2.1 ∨ (a.2.2.2.2.1 = b.2.2.2.2.1 ∧
                a.2.2.2.2.2 < b.2.2.2.2.2))))))))) := by
  unfold t6Lt
  split_ifs with h1 h2 h3 h4 h5 <;> simp_all

theorem t6Lt_trans {a b c : T6} (h1 : t6Lt a b = true) (h2 : t6Lt b c = true) :
    t6Lt a c = true := by
  rw [t6Lt_eq_true_iff] at h1 h2 ⊢
  omega

theorem parsedLe_refl (a : Option String) : parsedLe a a = true := by
  unfold parsedLe
  cases parseIso8601 a <;> simp

theorem parsedLe_of_isNewer {a b : Option String} (h : isNewer a b = true) :
    parsedLe b a = true := by
  unfold isNewer at h
  unfold parsedLe
  cases ha : parseIso8601 a with
  | none => rw [ha] at h; exact absurd h (by simp)
  | some pa =>
    rw [ha] at h
    cases hb : parseIso8601 b with
    | none => simp
    | some pb =>
      rw [hb] at h
      have h' : t6Lt pb pa = true := h
      simp [h']

theorem parsedLe_trans {a b c : Option String} (h1 : parsedLe a b = true)
    (h2 : parsedLe b c = true) : parsedLe a c = true := by
  unfold parsedLe at h1 h2 ⊢
  cases ha : parseIso8601 a with
  | none => simp
  | some pa =>
    rw [ha] at h1
    cases hb : parseIso8601 b with
    | none => rw [hb] at h1; exact absurd h1 (by simp)
    | some pb =>
      rw [hb] at h1 h2
      cases hc : parseIso8601 c with
      | none => rw [hc] at h2; exact absurd h2 (by simp)
      | some pc =>
        rw [hc] at h2
        simp only [Bool.or_eq_true, decide_eq_true_eq] at h1 h2 ⊢
        rcases h1 with h1 | h1 <;> rcases h2 with h2 | h2
        · exact .inl (h1.trans h2)
        · exact .inr (h1 ▸ h2)
        · exact .inr (h2 ▸ h1)
        · exact .inr (t6Lt_trans h1 h2)

theorem mem_dictSet {κ α : Type} [DecidableEq κ] {d : List (κ × α)} {k : κ} {v : α}
    {a : κ} {b : α} (h : (a, b) ∈ dictSet d k v) : (a, b) ∈ d ∨ (a = k ∧ b = v) := by
  induction d with
  | nil => simpa [dictSet] using h
  | cons hd tl ih =>
    obtain ⟨k', v'⟩ := hd
    by_cases hk : k' = k
    · subst hk
      rw [dictSet, if_pos rfl] at h
      rcases List.mem_cons.mp h with h | h
      · exact .inr (by simpa using h)
      · exact .inl (List.mem_cons_of_mem _ h)
    · rw [dictSet, if_neg hk] at h
      rcases List.mem_cons.mp h with h | h
      · exact .inl (List.mem_cons.mpr (.inl h))
      · rcases ih h with h2 | h2
        · exact .inl (List.mem_cons_of_mem _ h2)
        · exact .inr h2

theorem mem_of_lookup_eq_some {κ α : Type} [DecidableEq κ] {d : List (κ × α)} {k : κ}
    {v : α} (h : d.lookup k = some v) : (k, v) ∈ d := by
  induction d with
  | nil => simp [List.lookup] at h
  | cons hd tl ih =>
    obtain ⟨k', v'⟩ := hd
    by_cases hk : k = k'
    · subst hk
      rw [lookup_cons_self] at h
      exact List.mem_cons.mpr (.inl (by simpa using h.symm))
    · rw [lookup_cons_ne _ _ _ _ hk] at h
      exact List.mem_cons_of_mem _ (ih h)

/-- `add_id` never touches the watermark. -/
theorem add_id_last_updated (ps : ProviderState) (eid : String) (lru : Int) :
    (ps.add_id eid lru).last_updated = ps.last_updated := rfl

/-- `_prov`'s returned record is the stored one, or empty when absent. -/
theorem prov_fst (s : State) (n : String) :
    (s.prov n).1 = (s.providers.lookup n).getD (ProviderState.mk [] none) := by
  unfold State.prov
  cases s.providers.lookup n <;> simp

/-- Closed form of the state component of one id-loop step. -/
theorem updateLoopStep_state (st : State) (d : List (String × Option String)) (e : Event) :
    (State.updateLoopStep (st, d) e).1 =
      if eidOf e ≠ "" then
        { (st.prov (providerKey e)).2 with
          providers := dictSet (st.prov (providerKey e)).2.providers (providerKey e)
            ((st.prov (providerKey e)).1.add_id (eidOf e) st.lru_limit) }
      else (st.prov (providerKey e)).2 := by
  unfold State.updateLoopStep
  simp only
  rw [(prov_fields st (providerKey e)).2.2]

theorem updateLoopStep_lookup_ne (st : State) (d : List (String × Option String))
    (e : Event) (q : String) (hq : q ≠ providerKey e) :
    (State.updateLoopStep (st, d) e).1.providers.lookup q = st.providers.lookup q := by
  rw [updateLoopStep_state]
  by_cases he : eidOf e ≠ ""
  · rw [if_pos he]
    exact (lookup_dictSet_ne _ _ _ _ hq).trans (lookup_after_prov_ne st _ q hq)
  · rw [if_neg he]
    exact lookup_after_prov_ne st _ q hq

theorem updateLoopStep_lookup_self (st : State) (d : List (String × Option String))
    (e : Event) :
    (State.updateLoopStep (st, d) e).1.providers.lookup (providerKey e) =
      some (if eidOf e ≠ "" then
              (st.prov (providerKey e)).1.add_id (eidOf e) st.lru_limit
            else (st.prov (providerKey e)).1) := by
  rw [updateLoopStep_state]
  by_cases he : eidOf e ≠ ""
  · rw [if_pos he, if_pos he]
    exact lookup_dictSet_self _ _ _
  · rw [if_neg he, if_neg he]
    exact lookup_after_prov st _

/-- The id-loop of `update_with` never changes any provider's watermark. -/
theorem updateLoopStep_wm (acc : State × List (String × Option String)) (e : Event)
    (q : String) : wmOf (State.updateLoopStep acc e).1 q = wmOf acc.1 q := by
  obtain ⟨st, d⟩ := acc
  show wmOf (State.updateLoopStep (st, d) e).1 q = wmOf st q
  by_cases hq : q = providerKey e
  · unfold wmOf
    rw [hq, updateLoopStep_lookup_self, prov_fst]
    cases hl : st.providers.lookup (providerKey e) with
    | none =>
      by_cases he : eidOf e ≠ ""
      · rw [if_pos he]; rfl
      · rw [if_neg he]; rfl
    | some x =>
      by_cases he : eidOf e ≠ ""
      · rw [if_pos he]; rfl
      · rw [if_neg he]; rfl
  · unfold wmOf
    rw [updateLoopStep_lookup_ne st d e q hq]

theorem updateLoop_fold_wm (evs : List Event) (acc : State × List (String × Option String))
    (q : String) : wmOf (evs.foldl State.updateLoopStep acc).1 q = wmOf acc.1 q := by
  induction evs generalizing acc with
  | nil => rfl
  | cons e rest ih =>
    rw [List.foldl_cons]
    exact (ih _).trans (updateLoopStep_wm acc e q)

/-- The record `_prov` returns carries exactly the current watermark. -/
theorem prov_fst_last (s : State) (n : String) :
    (s.prov n).1.last_updated = wmOf s n := by
  rw [prov_fst]
  show _ = (s.providers.lookup n).bind ProviderState.last_updated
  cases s.providers.lookup n <;> rfl

/-- Closed form of one watermark-loop step, seen through `wmOf`. -/
theorem watermarkStep_wm (st : State) (k : String) (m : Option String) (p : String) :
    wmOf (State.watermarkStep st (k, m)) p =
      if k = p ∧ pyTruthyStr m = true ∧ isNewer m (wmOf st p) = true then m
      else wmOf st p := by
  by_cases hw : pyTruthyStr m
  · have hstep : State.watermarkStep st (k, m) =
        { (st.prov k).2 with
          providers := dictSet (st.prov k).2.providers k
            ((st.prov k).1.consider_updated m) } := by
      unfold State.watermarkStep
      simp only
      rw [if_pos hw]
    rw [hstep]
    by_cases hk : k = p
    · subst hk
      have hL : wmOf { (st.prov k).2 with
          providers := dictSet (st.prov k).2.providers k
            ((st.prov k).1.consider_updated m) } k =
          ((st.prov k).1.consider_updated m).last_updated := by
        show (List.lookup k (dictSet (st.prov k).2.providers k
            ((st.prov k).1.consider_updated m))).bind ProviderState.last_updated = _
        rw [lookup_dictSet_self]
        rfl
      rw [hL]
      unfold ProviderState.consider_updated
      by_cases hn : isNewer m (st.prov k).1.last_updated
      · rw [if_pos (by simp [hw, hn])]
        rw [if_pos ⟨rfl, hw, by rw [← prov_fst_last]; exact hn⟩]
      · rw [if_neg (by simp [hn])]
        rw [if_neg (fun hc => hn (by rw [prov_fst_last]; exact hc.2.2))]
        exact prov_fst_last st k
    · have hL : wmOf { (st.prov k).2 with
          providers := dictSet (st.prov k).2.providers k
            ((st.prov k).1.consider_updated m) } p = wmOf st p := by
        show (List.lookup p (dictSet (st.prov k).2.providers k
            ((st.prov k).1.consider_updated m))).bind ProviderState.last_updated = _
        rw [lookup_dictSet_ne _ _ _ _ (fun hh => hk hh.symm)]
        rw [lookup_after_prov_ne st k p (fun hh => hk hh.symm)]
        rfl
      rw [hL, if_neg (by simp [hk])]
  · have hstep : State.watermarkStep st (k, m) = st := by
      unfold State.watermarkStep
      simp only
      rw [if_neg hw]
    rw [hstep, if_neg (by simp [hw])]

theorem watermark_fold_wm_mono (d : List (String × Option String)) (st : State)
    (p : String) : parsedLe (wmOf st p) (wmOf (d.foldl State.watermarkStep st) p) = true := by
  induction d generalizing st with
  | nil => exact parsedLe_refl _
  | cons pm rest ih =>
    obtain ⟨k, m⟩ := pm
    rw [List.foldl_cons]
    have hstep := watermarkStep_wm st k m p
    by_cases hc : k = p ∧ pyTruthyStr m = true ∧ isNewer m (wmOf st p) = true
    · rw [if_pos hc] at hstep
      have h1 : parsedLe (wmOf st p) (wmOf (State.watermarkStep st (k, m)) p) = true := by
        rw [hstep]
        exact parsedLe_of_isNewer hc.2.2
      exact parsedLe_trans h1 (ih _)
    · rw [if_neg hc] at hstep
      have h2 := ih (State.watermarkStep st (k, m))
      rw [hstep] at h2
      exact h2

theorem watermark_fold_wm_stale (d : List (String × Option String)) (st : State)
    (p : String) (h : ∀ m, (p, m) ∈ d → isNewer m (wmOf st p) = false) :
    wmOf (d.foldl State.watermarkStep st) p = wmOf st p := by
  induction d generalizing st with
  | nil => rfl
  | cons pm rest ih =>
    obtain ⟨k, m⟩ := pm
    rw [List.foldl_cons]
    have hstep := watermarkStep_wm st k m p
    have hne : ¬(k = p ∧ pyTruthyStr m = true ∧ isNewer m (wmOf st p) = true) := by
      rintro ⟨hk, _, hnew⟩
      subst hk
      rw [h m (List.mem_cons_self _ _)] at hnew
      exact absurd hnew (by simp)
    rw [if_neg hne] at hstep
    rw [ih (State.watermarkStep st (k, m)) (fun m' hm' => by
      rw [hstep]
      exact h m' (List.mem_cons_of_mem _ hm'))]
    exact hstep

/-- Every value the max-`updated` dict holds for provider `p` is one of the
batch's `updated` values for `p` (or `none`), hence stale whenever the whole
batch is stale. -/
theorem fold_maxd_stale (evs : List Event) (acc : State × List (String × Option String))
    (p : String) (W : Option String)
    (hevs : ∀ e ∈ evs, providerKey e = p → isNewer e.updated W = false)
    (hacc : ∀ m, (p, m) ∈ acc.2 → isNewer m W = false) :
    ∀ m, (p, m) ∈ (evs.foldl State.updateLoopStep acc).2 → isNewer m W = false := by
  induction evs generalizing acc with
  | nil => exact hacc
  | cons e rest ih =>
    rw [List.foldl_cons]
    refine ih _ (fun e' he' hp => hevs e' (List.mem_cons_of_mem _ he') hp) ?_
    intro m hm
    obtain ⟨st, d⟩ := acc
    unfold State.updateLoopStep at hm
    simp only at hm
    rcases mem_dictSet hm with hmem | ⟨hkp, hval⟩
    · exact hacc m hmem
    · subst hval
      by_cases hn : isNewer e.updated ((d.lookup (providerKey e)).join)
      · rw [if_pos hn]
        exact hevs e (List.mem_cons_self _ _) hkp.symm
      · rw [if_neg hn]
        cases hl : d.lookup (providerKey e) with
        | none =>
          show isNewer (Option.join none) W = false
          rfl
        | some m' =>
          show isNewer (Option.join (some m')) W = false
          rw [show Option.join (some m') = m' from rfl]
          exact hacc m' (by rw [hkp]; exact mem_of_lookup_eq_some hl)

/-- C5: for every provider and committed batch, the watermark never
decreases under parsed-timestamp ordering (`null`/unparseable strictly
smallest), and a batch whose events for that provider are all older than or
missing relative to the current watermark leaves it unchanged. -/
theorem watermark_monotone (s : State) (evs : List Event) (p : String) :
    parsedLe (wmOf s p) (wmOf (s.update_with evs) p) = true ∧
      ((∀ e ∈ evs, providerKey e = p → isNewer e.updated (wmOf s p) = false) →
        wmOf (s.update_with evs) p = wmOf s p) := by
  unfold State.update_with
  have h1 : wmOf (evs.foldl State.updateLoopStep (s, [])).1 p = wmOf s p :=
    updateLoop_fold_wm evs (s, []) p
  constructor
  · have h2 := watermark_fold_wm_mono (evs.foldl State.updateLoopStep (s, [])).2
      (evs.foldl State.updateLoopStep (s, [])).1 p
    rw [h1] at h2
    exact h2
  · intro hstale
    have hd := fold_maxd_stale evs (s, []) p (wmOf s p) hstale (by simp)
    have h3 := watermark_fold_wm_stale (evs.foldl State.updateLoopStep (s, [])).2
      (evs.foldl State.updateLoopStep (s, [])).1 p (fun m hm => by
        rw [h1]
        exact hd m hm)
    rw [h1] at h3
    exact h3

/-- C5 witness: committing a batch of one newer and one stale event advances
the concrete watermark, and a fully stale batch leaves it unchanged. -/
theorem watermark_monotone_witness :
    wmOf ((State.mk ⟨"state", ".json"⟩ 1
          [("usgs", ProviderState.mk ["A"] (some "2025-06-01T00:00:00Z"))] 128).update_with
        [{ id := some "B", provider := some "usgs",
           updated := some "2025-01-01T00:00:00Z" }]) "usgs" =
      wmOf (State.mk ⟨"state", ".json"⟩ 1
        [("usgs", ProviderState.mk ["A"] (some "2025-06-01T00:00:00Z"))] 128) "usgs" :=
  (watermark_monotone _ _ "usgs").2 (by
    intro e he hp
    rw [List.mem_singleton] at he
    subst he
    decide)

/-! ## Claim C9 -/

/-- C9: for an `nws` event whose properties carry no numeric
`wind_gust_mps`/`rainfall_mm_hr` values, the weather threshold gate passes
the event even when numeric `windGustMps`/`rainfallMmHr` thresholds are
configured (taking the categorical include/exclude lists as unset, as in the
spec's scenario) — missing numeric data never causes rejection. -/
theorem weather_permissive_on_missing (e : Event) (thresholds : Thresholds)
    (t : WeatherThresholds)
    (hprov : pyLower (e.provider.getD "") = "nws")
    (hw : thresholds.weather = some t)
    (hinc : t.include_events = []) (hexc : t.exclude_events = [])
    (hgust : (asWeatherValues e).1 = none) (hrain : (asWeatherValues e).2 = none) :
    passesThresholds e thresholds = true := by
  have hpw : passesWeatherThresholds e thresholds.weather = true := by
    rw [hw]
    unfold passesWeatherThresholds
    simp only [hinc, hexc, ne_eq, not_true_eq_false, Bool.false_and, Bool.false_eq_true,
      if_false, ite_false]
    cases hwg : t.wind_gust_mps <;> cases hrf : t.rainfall_mm_hr <;>
      simp [hgust, hrain]
  unfold passesThresholds
  rw [hprov, hpw]
  simp

/-- C9 witness: the spec's scenario — a weather event with no gust/rainfall
properties passes a configured `windGustMps = 20` threshold. -/
theorem weather_permissive_on_missing_witness :
    passesThresholds
      { id := some "w1", provider := some "nws",
        properties := [("event", .pstr "High Wind Warning")] }
      { weather := some { wind_gust_mps := some 20 } } = true :=
  weather_permissive_on_missing _ _ { wind_gust_mps := some 20 }
    (by decide) rfl rfl rfl (by decide) (by decide)

/-! ## Claim C6 -/

theorem lookup_groupAppend_self (g : List (String × List Event)) (k : String) (e : Event) :
    (groupAppend g k e).lookup k = some ((g.lookup k).getD [] ++ [e]) := by
  induction g with
  | nil => simp [groupAppend, lookup_cons_self, List.lookup]
  | cons hd tl ih =>
    obtain ⟨k', evs⟩ := hd
    by_cases h : k' = k
    · subst h
      rw [groupAppend, if_pos rfl, lookup_cons_self, lookup_cons_self]
      rfl
    · rw [groupAppend, if_neg h, lookup_cons_ne _ _ _ _ (fun hh => h hh.symm),
        lookup_cons_ne _ _ _ _ (fun hh => h hh.symm)]
      exact ih

theorem lookup_groupAppend_ne (g : List (String × List Event)) (k q : String) (e : Event)
    (hq : q ≠ k) : (groupAppend g k e).lookup q = g.lookup q := by
  induction g with
  | nil => simp [groupAppend, List.lookup, beq_eq_false_iff_ne.mpr hq]
  | cons hd tl ih =>
    obtain ⟨k', evs⟩ := hd
    by_cases h : k' = k
    · subst h
      rw [groupAppend, if_pos rfl, lookup_cons_ne _ _ _ _ hq, lookup_cons_ne _ _ _ _ hq]
    · rw [groupAppend, if_neg h]
      by_cases h2 : q = k'
      · subst h2
        rw [lookup_cons_self, lookup_cons_self]
      · rw [lookup_cons_ne _ _ _ _ h2, lookup_cons_ne _ _ _ _ h2]
        exact ih

/-- Lookup characterization of the routing fold: a group collects, in order,
exactly the events the per-event routing logic sends to it. -/
theorem groupFold_lookup (cfg : RoutingConfig) (evs : List Event)
    (acc : List (String × List Event)) (gk : String) :
    (evs.foldl (fun groups e =>
        match keyFor cfg e with
        | none => groups
        | some k => groupAppend groups k e) acc).lookup gk =
      match acc.lookup gk with
      | some a => some (a ++ evs.filter (fun e => keyFor cfg e == some gk))
      | none =>
        if (evs.filter (fun e => keyFor cfg e == some gk)).isEmpty then none
        else some (evs.filter (fun e => keyFor cfg e == some gk)) := by
  induction evs generalizing acc with
  | nil =>
    cases h : acc.lookup gk with
    | none => simp [h]
    | some a => simp [h]
  | cons e rest ih =>
    rw [List.foldl_cons]
    cases hk : keyFor cfg e with
    | none =>
      simp only [hk]
      have hfil : (e :: rest).filter (fun e => keyFor cfg e == some gk) =
          rest.filter (fun e => keyFor cfg e == some gk) := by
        rw [List.filter_cons]
        simp [hk]
      rw [hfil]
      exact ih acc
    | some k =>
      simp only [hk]
      by_cases hkg : k = gk
      · subst hkg
        have hfil : (e :: rest).filter (fun e => keyFor cfg e == some k) =
            e :: rest.filter (fun e => keyFor cfg e == some k) := by
          rw [List.filter_cons]
          simp [hk]
        rw [hfil, ih (groupAppend acc k e), lookup_groupAppend_self]
        cases acc.lookup k with
        | none => simp
        | some a => simp
      · have hfil : (e :: rest).filter (fun e => keyFor cfg e == some gk) =
            rest.filter (fun e => keyFor cfg e == some gk) := by
          rw [List.filter_cons]
          simp [hk, hkg]
        rw [hfil, ih (groupAppend acc k e),
          lookup_groupAppend_ne acc k gk e (fun hh => hkg hh.symm)]

/-- Appending events that all route to group `f` onto a sole `f` group. -/
theorem groupFold_all_same_acc (cfg : RoutingConfig) (f : String) (evs : List Event)
    (h : ∀ e ∈ evs, keyFor cfg e = some f) (l : List Event) :
    (evs.foldl (fun groups e =>
        match keyFor cfg e with
        | none => groups
        | some k => groupAppend groups k e) [(f, l)]) = [(f, l ++ evs)] := by
  induction evs generalizing l with
  | nil => simp
  | cons e rest ih =>
    rw [List.foldl_cons]
    simp only [h e (List.mem_cons_self _ _)]
    rw [show groupAppend [(f, l)] f e = [(f, l ++ [e])] by rw [groupAppend, if_pos rfl]]
    rw [ih (fun e' he' => h e' (List.mem_cons_of_mem _ he')) (l ++ [e])]
    simp

theorem groupFold_all_same (cfg : RoutingConfig) (f : String) (evs : List Event)
    (h : ∀ e ∈ evs, keyFor cfg e = some f) :
    (evs.foldl (fun groups e =>
        match keyFor cfg e with
        | none => groups
        | some k => groupAppend groups k e) []) =
      if evs.isEmpty then [] else [(f, evs)] := by
  cases evs with
  | nil => rfl
  | cons e rest =>
    rw [List.foldl_cons]
    simp only [h e (List.mem_cons_self _ _)]
    rw [show groupAppend ([] : List (String × List Event)) f e = [(f, [e])] from rfl]
    rw [groupFold_all_same_acc cfg f rest
      (fun e' he' => h e' (List.mem_cons_of_mem _ he')) [e]]
    simp

theorem groupFold_all_none (cfg : RoutingConfig) (evs : List Event)
    (h : ∀ e ∈ evs, keyFor cfg e = none) :
    (evs.foldl (fun groups e =>
        match keyFor cfg e with
        | none => groups
        | some k => groupAppend groups k e) []) = [] := by
  induction evs with
  | nil => rfl
  | cons e rest ih =>
    rw [List.foldl_cons]
    simp only [h e (List.mem_cons_self _ _)]
    exact ih (fun e' he' => h e' (List.mem_cons_of_mem _ he'))

/-- The per-event routing key under a meaningful `forceGroup`. -/
theorem keyFor_forced (cfg : RoutingConfig) (e : Event) (f : String)
    (hf : forcedKeyOf cfg = some f) :
    keyFor cfg e = if cfg.drop_groups.contains f then none else some f := by
  unfold keyFor
  rw [hf]
  simp

/-- The per-event routing key when no meaningful `forceGroup` is set. -/
theorem keyFor_unforced (cfg : RoutingConfig) (e : Event)
    (hf : forcedKeyOf cfg = none) :
    keyFor cfg e =
      if cfg.drop_groups.contains (ownKeyOf e) then none
      else some ((cfg.merge.lookup (ownKeyOf e)).getD (ownKeyOf e)) := by
  unfold keyFor ownKeyOf
  rw [hf]
  simp

/-- C6: routing precedence. With a meaningful (non-"default",
case-insensitive) `forceGroup`, every event's effective key is the forced
key — overriding the event's own `routingKey` and bypassing `merge` — and
`dropGroups` is still evaluated on that resolved key: a dropped forced key
discards everything, otherwise the whole batch lands in the single forced
group. Without a force, each event's own key is drop-checked and then
remapped through `merge` exactly one hop. -/
theorem routing_precedence (st : Settings) (evs : List Event) :
    (∀ f, forcedKeyOf st.app.routing = some f →
      (∀ e, keyFor st.app.routing e =
        if st.app.routing.drop_groups.contains f then none else some f) ∧
      (st.app.routing.drop_groups.contains f = true → groupByRoutingKey evs st = []) ∧
      (st.app.routing.drop_groups.contains f = false →
        groupByRoutingKey evs st = if evs.isEmpty then [] else [(f, evs)])) ∧
    (forcedKeyOf st.app.routing = none →
      ∀ e, keyFor st.app.routing e =
        if st.app.routing.drop_groups.contains (ownKeyOf e) then none
        else some ((st.app.routing.merge.lookup (ownKeyOf e)).getD (ownKeyOf e))) := by
  constructor
  · intro f hf
    refine ⟨fun e => keyFor_forced _ e f hf, ?_, ?_⟩
    · intro hdrop
      unfold groupByRoutingKey
      exact groupFold_all_none _ evs (fun e _ => by
        rw [keyFor_forced _ e f hf, hdrop]
        simp)
    · intro hdrop
      unfold groupByRoutingKey
      exact groupFold_all_same _ f evs (fun e _ => by
        rw [keyFor_forced _ e f hf, hdrop]
        simp)
  · intro hf e
    exact keyFor_unforced _ e hf

/-- C6 witness: a concrete forced, non-dropped config groups both events
(with different own routing keys, one of them drop-listed and one
merge-listed) into the single forced group, ignoring merge. -/
theorem routing_precedence_witness :
    groupByRoutingKey
      [{ id := some "a", routing_key := some "ops" },
       { id := some "b", routing_key := some "bad" }]
      { paths := ⟨⟨"state", ".json"⟩⟩,
        app := { routing := { force_group := some " Ops ",
                              merge := [("Ops", "merged")],
                              drop_groups := ["bad"] } } } =
      [("Ops", [{ id := some "a", routing_key := some "ops" },
                { id := some "b", routing_key := some "bad" }])] :=
  (((routing_precedence
      { paths := ⟨⟨"state", ".json"⟩⟩,
        app := { routing := { force_group := some " Ops ",
                              merge := [("Ops", "merged")],
                              drop_groups := ["bad"] } } }
      [{ id := some "a", routing_key := some "ops" },
       { id := some "b", routing_key := some "bad" }]).1 "Ops" rfl).2.2) rfl

/-! ## Claims C3 and C10

`pipeline.run` (pipeline.py:256) evaluates `settings.app.no_html` outside
any `try` block, but `AppConfig` (settings.py) defines no `no_html` field
and pydantic v2 models raise `AttributeError` on unknown attribute access.
Consequently every run whose filtered event list is non-empty raises before
the dedup/route/dispatch/commit stages — contradicting the repo's own
`tests/test_pipeline.py` (which drives full runs to completion) and the
spec's pipeline contract. The two theorems below evaluate the embedded
`run` at the claims' failing inputs. -/

/-- C3: with recipients and email fully configured and one fresh, routable,
threshold-passing event, `run` raises `AttributeError` (missing
`AppConfig.no_html`) before any dispatch is attempted, so the dedup store is
never committed — the claimed "commit exactly once after all dispatch
attempts" behavior is unreachable. -/
theorem run_raises_before_dispatch :
    run
      { paths := ⟨⟨"state", ".json"⟩⟩,
        recipients := [("default", ["alerts@example.com"])],
        email := { user := some "sender@example.com", app_password := some "x" } }
      [{ id := some "usgs-001", provider := some "usgs",
         updated := some "2025-11-03T10:00:00Z", severity := some "Moderate",
         routing_key := some "default", properties := [("mag", .pnum (23/5))] }]
      [] = .error .attrNoHtml := rfl

/-- C10: zero-send runs return 0 with the state file untouched only in the
two stages before pipeline.py:256 (no events fetched / all filtered out);
a run whose events would all be removed by dedup — the event below is
already in the persisted store — raises `AttributeError` instead of
returning 0, because the `settings.app.no_html` read precedes the dedup
stage. -/
theorem run_zero_send_crashes :
    (run
        { paths := ⟨⟨"state", ".json"⟩⟩,
          recipients := [("default", ["alerts@example.com"])],
          email := { user := some "sender@example.com", app_password := some "x" } }
        [] [] = .ok (0, [])) ∧
    (run
        { paths := ⟨⟨"state", ".json"⟩⟩,
          recipients := [("default", ["alerts@example.com"])],
          email := { user := some "sender@example.com", app_password := some "x" } }
        [{ id := some "usgs-001", provider := some "usgs",
           routing_key := some "default" }]
        [(⟨"state", ".json"⟩,
          .valid (State.to_dict
            (State.mk ⟨"state", ".json"⟩ 1
              [("usgs", ProviderState.mk ["usgs-001"] none)] 5000)))] =
      .error .attrNoHtml) :=
  ⟨rfl, rfl⟩

/-! ## Claim C4 -/

/-- Erasing an element that does not occur in the first `n` positions leaves
every prefix of length `≤ n` unchanged. -/
theorem erase_take_eq (l : List String) (x : String) (n j : Nat) (hj : j ≤ n)
    (hx : x ∉ l.take n) : (l.erase x).take j = l.take j := by
  induction l generalizing n j with
  | nil => simp
  | cons a t ih =>
    cases n with
    | zero =>
      have : j = 0 := Nat.le_zero.mp hj
      simp [this]
    | succ n' =>
      have hax : a ≠ x := by
        intro h
        exact hx (by rw [List.take_succ_cons, h]; exact List.mem_cons_self _ _)
      have hxt : x ∉ t.take n' := by
        intro h
        exact hx (by rw [List.take_succ_cons]; exact List.mem_cons_of_mem _ h)
      rw [List.erase_cons_tail (by simp [hax])]
      cases j with
      | zero => simp
      | succ j' =>
        rw [List.take_succ_cons, List.take_succ_cons,
          ih n' j' (Nat.succ_le_succ_iff.mp hj) hxt]

/-- One `add_id` step maintains the "most-recent-first prefix" invariant:
having processed the distinct batch `P` (oldest first), the list's first
`min (|P|) lru` entries are `P` reversed, and adding a fresh `x` extends
that prefix by `x` at the front. -/
theorem pyAddId_step (P ids : List String) (x : String) (lru : Int) (h0 : 0 ≤ lru)
    (hx : x ∉ P)
    (hpre : ids.take (min P.length lru.toNat) = P.reverse.take (min P.length lru.toNat))
    (hlen : min P.length lru.toNat ≤ ids.length) :
    (pyAddId ids x lru).take (min (P.length + 1) lru.toNat) =
      (x :: P.reverse).take (min (P.length + 1) lru.toNat) ∧
      min (P.length + 1) lru.toNat ≤ (pyAddId ids x lru).length := by
  by_cases hm0 : lru.toNat = 0
  · simp [hm0]
  have hxrev : x ∉ P.reverse.take (min P.length lru.toNat) := fun hmem =>
    hx (List.mem_reverse.mp (List.mem_of_mem_take hmem))
  have hxpre : x ∉ ids.take (min P.length lru.toNat) := by
    rw [hpre]; exact hxrev
  unfold pyAddId
  by_cases hh : ids.head? = some x
  · -- head-skip: only possible when the tracked prefix is empty
    rw [if_pos hh]
    obtain ⟨t, rfl⟩ : ∃ t, ids = x :: t := by
      cases ids with
      | nil => simp at hh
      | cons a t => exact ⟨t, by simpa using (Option.some_inj.mp hh) ▸ rfl⟩
    have hP0 : P.length = 0 ∨ lru.toNat = 0 := by
      by_contra hc
      push_neg at hc
      obtain ⟨k, hk⟩ : ∃ k, min P.length lru.toNat = k + 1 :=
        ⟨min P.length lru.toNat - 1, by omega⟩
      have hxmem : x ∈ P.reverse.take (min P.length lru.toNat) := by
        rw [← hpre, hk, List.take_succ_cons]
        exact List.mem_cons_self _ _
      exact hxrev hxmem
    rcases hP0 with hP0 | hP0
    · have hP : P = [] := List.length_eq_zero.mp hP0
      subst hP
      have h1 : min (List.length ([] : List String) + 1) lru.toNat = 1 := by
        simp only [List.length_nil]
        omega
      constructor
      · rw [h1]
        simp
      · rw [h1]
        simp
    · exact absurd hP0 hm0
  · -- genuine insert at the front
    rw [if_neg hh]
    have hlru1 : 1 ≤ lru.toNat := Nat.one_le_iff_ne_zero.mpr hm0
    set m := min P.length lru.toNat with hm
    set m' := min (P.length + 1) lru.toNat with hm'
    have hm'le : m' ≤ m + 1 := by omega
    have hm'lru : m' ≤ lru.toNat := by omega
    have hm'1 : 1 ≤ m' := by omega
    -- the erased list keeps the tracked prefix
    have herase : ∀ j ≤ m, ((ids.erase x).take j = ids.take j) :=
      fun j hj => erase_take_eq ids x m j hj hxpre
    -- length of the pre-truncation list
    have hlenl : m' ≤ (x :: ids.erase x).length := by
      by_cases hxin : x ∈ ids
      · have hgt : m < ids.length := by
          rcases Nat.lt_or_ge m ids.length with h | h
          · exact h
          · exfalso
            have : ids.take m = ids := List.take_of_length_le h
            rw [this] at hxpre
            exact hxpre hxin
        have : (ids.erase x).length = ids.length - 1 := List.length_erase_of_mem hxin
        simp [this]
        omega
      · have : ids.erase x = ids := List.erase_of_not_mem hxin
        simp [this]
        omega
    have hpref : (x :: ids.erase x).take m' = (x :: P.reverse).take m' := by
      obtain ⟨k, hk⟩ : ∃ k, m' = k + 1 := ⟨m' - 1, by omega⟩
      rw [hk, List.take_succ_cons, List.take_succ_cons]
      congr 1
      have hkm : k ≤ m := by omega
      rw [herase k hkm]
      calc ids.take k = (ids.take m).take k := by rw [List.take_take]; congr 1; omega
        _ = (P.reverse.take m).take k := by rw [hpre]
        _ = P.reverse.take k := by rw [List.take_take]; congr 1; omega
    by_cases ht : ((x :: ids.erase x).length : Int) > lru
    · rw [if_pos ht]
      have hkeep : pySliceKeep lru (x :: ids.erase x).length =
          min lru.toNat (x :: ids.erase x).length := by
        unfold pySliceKeep
        rw [if_pos h0]
      rw [hkeep]
      have hm'keep : m' ≤ min lru.toNat (x :: ids.erase x).length := by
        omega
      constructor
      · rw [List.take_take, Nat.min_eq_left hm'keep]
        exact hpref
      · rw [List.length_take]
        omega
    · rw [if_neg ht]
      exact ⟨hpref, hlenl⟩

/-- The prefix invariant carried over a whole batch. -/
theorem idsFold_prefix (eids : List String) (P ids : List String) (lru : Int)
    (h0 : 0 ≤ lru) (hnd : (P ++ eids).Nodup)
    (hpre : ids.take (min P.length lru.toNat) = P.reverse.take (min P.length lru.toNat))
    (hlen : min P.length lru.toNat ≤ ids.length) :
    (idsFold ids lru eids).take (min (P ++ eids).length lru.toNat) =
      ((P ++ eids).reverse).take (min (P ++ eids).length lru.toNat) ∧
      min (P ++ eids).length lru.toNat ≤ (idsFold ids lru eids).length := by
  induction eids generalizing P ids with
  | nil =>
    simp only [List.append_nil]
    exact ⟨hpre, hlen⟩
  | cons x rest ih =>
    have hx : x ∉ P := fun hmem =>
      (List.nodup_append.mp hnd).2.2 hmem (List.mem_cons_self _ _)
    have hstep := pyAddId_step P ids x lru h0 hx hpre hlen
    have hnd' : ((P ++ [x]) ++ rest).Nodup := by
      rw [List.append_assoc]
      exact hnd
    have hpre' : (pyAddId ids x lru).take (min (P ++ [x]).length lru.toNat) =
        ((P ++ [x]).reverse).take (min (P ++ [x]).length lru.toNat) := by
      simpa [List.length_append, List.reverse_append] using hstep.1
    have hlen' : min (P ++ [x]).length lru.toNat ≤ (pyAddId ids x lru).length := by
      simpa [List.length_append] using hstep.2
    have := ih (P ++ [x]) (pyAddId ids x lru) hnd' hpre' hlen'
    have hrw : (P ++ [x]) ++ rest = P ++ x :: rest := by
      rw [List.append_assoc]
      rfl
    rw [hrw] at this
    unfold idsFold at this ⊢
    rw [List.foldl_cons]
    exact this

theorem pyAddId_len_le (ids : List String) (x : String) (lru : Int) (h0 : 0 ≤ lru)
    (h : (ids.length : Int) ≤ lru) : ((pyAddId ids x lru).length : Int) ≤ lru := by
  unfold pyAddId
  by_cases hh : ids.head? = some x
  · rw [if_pos hh]; exact h
  · rw [if_neg hh]
    by_cases ht : ((x :: ids.erase x).length : Int) > lru
    · rw [if_pos ht]
      unfold pySliceKeep
      rw [if_pos h0, List.length_take]
      omega
    · rw [if_neg ht]
      omega

theorem pyAddId_head_or_nil (ids : List String) (x : String) (lru : Int) :
    (pyAddId ids x lru).head? = some x ∨ pyAddId ids x lru = [] := by
  unfold pyAddId
  by_cases hh : ids.head? = some x
  · rw [if_pos hh]; exact .inl hh
  · rw [if_neg hh]
    by_cases ht : ((x :: ids.erase x).length : Int) > lru
    · rw [if_pos ht]
      cases hk : pySliceKeep lru (x :: ids.erase x).length with
      | zero => exact .inr (by simp)
      | succ k => exact .inl (by rw [List.take_succ_cons]; rfl)
    · rw [if_neg ht]
      exact .inl rfl

/-- A genuine (non-head-skip) insert always leaves at most `lru` entries. -/
theorem pyAddId_insert_len_le (ids : List String) (x : String) (lru : Int) (h0 : 0 ≤ lru)
    (hh : ids.head? ≠ some x) : ((pyAddId ids x lru).length : Int) ≤ lru := by
  unfold pyAddId
  rw [if_neg hh]
  by_cases ht : ((x :: ids.erase x).length : Int) > lru
  · rw [if_pos ht]
    unfold pySliceKeep
    rw [if_pos h0, List.length_take]
    omega
  · rw [if_neg ht]
    omega

theorem idsFold_len_le (eids ids : List String) (lru : Int) (h0 : 0 ≤ lru)
    (h : (ids.length : Int) ≤ lru) : ((idsFold ids lru eids).length : Int) ≤ lru := by
  induction eids generalizing ids with
  | nil => exact h
  | cons x rest ih =>
    unfold idsFold
    rw [List.foldl_cons]
    exact ih _ (pyAddId_len_le ids x lru h0 h)

/-- After at least two distinct batch ids, the list length is capped. -/
theorem idsFold_two_len_le (x₁ x₂ : String) (rest ids : List String) (lru : Int)
    (h0 : 0 ≤ lru) (hne : x₁ ≠ x₂) :
    ((idsFold ids lru (x₁ :: x₂ :: rest)).length : Int) ≤ lru := by
  unfold idsFold
  rw [List.foldl_cons, List.foldl_cons]
  have hhead : (pyAddId ids x₁ lru).head? ≠ some x₂ := by
    rcases pyAddId_head_or_nil ids x₁ lru with h | h
    · rw [h]
      simp [hne]
    · rw [h]
      simp
  exact idsFold_len_le rest _ lru h0 (pyAddId_insert_len_le _ x₂ lru h0 hhead)

/-- Closed form of the LRU list after a distinct batch longer than the cap:
exactly the last `lru` batch ids, most recent first. -/
theorem idsFold_final (ids eids : List String) (lru : Int)
    (hnd : eids.Nodup) (hlru : 1 ≤ lru) (hN : lru < (eids.length : Int)) :
    idsFold ids lru eids = eids.reverse.take lru.toNat ∧
      ((idsFold ids lru eids).length : Int) = lru := by
  have h0 : 0 ≤ lru := by omega
  have hinv := idsFold_prefix eids [] ids lru h0 (by simpa using hnd) (by simp) (by simp)
  simp only [List.nil_append] at hinv
  have hmin : min eids.length lru.toNat = lru.toNat := by omega
  rw [hmin] at hinv
  obtain ⟨x₁, x₂, rest, rfl⟩ : ∃ x₁ x₂ rest, eids = x₁ :: x₂ :: rest := by
    cases eids with
    | nil => exfalso; simp at hN; omega
    | cons a t =>
      cases t with
      | nil =>
        exfalso
        simp at hN
        omega
      | cons b r => exact ⟨a, b, r, rfl⟩
  have hne : x₁ ≠ x₂ := by
    intro h
    subst h
    simp at hnd
  have hub := idsFold_two_len_le x₁ x₂ rest ids lru h0 hne
  have hlen : ((idsFold ids lru (x₁ :: x₂ :: rest)).length : Int) = lru := by
    have := hinv.2
    omega
  refine ⟨?_, hlen⟩
  have htake : idsFold ids lru (x₁ :: x₂ :: rest) =
      (idsFold ids lru (x₁ :: x₂ :: rest)).take lru.toNat := by
    rw [List.take_of_length_le]
    omega
  rw [htake, hinv.1]

/-- The id loop over a non-empty single-provider batch drives that
provider's id list through `idsFold`. -/
theorem updateLoop_fold_ids_cons (evs : List Event) (st : State)
    (d : List (String × Option String)) (p : String)
    (hp : ∀ x ∈ evs, providerKey x = p) (hne : ∀ x ∈ evs, eidOf x ≠ "")
    (hev : evs ≠ []) :
    ∃ ps, ((evs.foldl State.updateLoopStep (st, d)).1).providers.lookup p = some ps ∧
      ps.ids = idsFold (((st.providers.lookup p).getD (ProviderState.mk [] none)).ids)
        st.lru_limit (evs.map eidOf) := by
  induction evs generalizing st d with
  | nil => exact absurd rfl hev
  | cons e rest ih =>
    rw [List.foldl_cons]
    have hpe : providerKey e = p := hp e (List.mem_cons_self _ _)
    have hnee : eidOf e ≠ "" := hne e (List.mem_cons_self _ _)
    have hself := updateLoopStep_lookup_self st d e
    rw [if_pos hnee, hpe] at hself
    have hlru : (State.updateLoopStep (st, d) e).1.lru_limit = st.lru_limit :=
      (updateLoopStep_fields (st, d) e).2.2
    by_cases hrest : rest = []
    · subst hrest
      rw [List.foldl_nil]
      refine ⟨_, hself, ?_⟩
      show ((st.prov p).1.add_id (eidOf e) st.lru_limit).ids = _
      unfold ProviderState.add_id
      rw [prov_fst]
      rfl
    · obtain ⟨ps, hl, hi⟩ := ih
        ((State.updateLoopStep (st, d) e).1) ((State.updateLoopStep (st, d) e).2)
        (fun x hx => hp x (List.mem_cons_of_mem _ hx))
        (fun x hx => hne x (List.mem_cons_of_mem _ hx)) hrest
      refine ⟨ps, hl, ?_⟩
      rw [hi, hself, hlru]
      show idsFold ((st.prov p).1.add_id (eidOf e) st.lru_limit).ids
          st.lru_limit (rest.map eidOf) = _
      unfold ProviderState.add_id
      rw [prov_fst]
      rw [List.map_cons]
      unfold idsFold
      rw [List.foldl_cons]

/-- C4: committing a batch of `N > lruLimit` distinct usable ids for one
provider leaves that provider's `seenIds` holding exactly `lruLimit` ids —
the most recently committed ones, most-recent-first (last-committed id
first) — and no id appears twice. -/
theorem lru_bound (s : State) (p : String) (evs : List Event)
    (hp : ∀ e ∈ evs, providerKey e = p)
    (hne : ∀ e ∈ evs, eidOf e ≠ "")
    (hnd : (evs.map eidOf).Nodup)
    (hlru : 1 ≤ s.lru_limit)
    (hN : s.lru_limit < (evs.length : Int)) :
    ∃ ps, (s.update_with evs).providers.lookup p = some ps ∧
      ps.ids = ((evs.map eidOf).reverse).take s.lru_limit.toNat ∧
      (ps.ids.length : Int) = s.lru_limit ∧ ps.ids.Nodup := by
  have hev : evs ≠ [] := by
    intro h
    subst h
    simp at hN
    omega
  obtain ⟨ps1, hl1, hi1⟩ := updateLoop_fold_ids_cons evs s [] p hp hne hev
  obtain ⟨ps2, hl2, hi2⟩ := watermark_fold_ids (evs.foldl State.updateLoopStep (s, [])).2
    (evs.foldl State.updateLoopStep (s, [])).1 p ps1 hl1
  have hfinal := idsFold_final
    (((s.providers.lookup p).getD (ProviderState.mk [] none)).ids) (evs.map eidOf)
    s.lru_limit hnd hlru (by rw [List.length_map]; exact hN)
  have hids : ps2.ids = ((evs.map eidOf).reverse).take s.lru_limit.toNat := by
    rw [hi2, hi1, hfinal.1]
  refine ⟨ps2, hl2, hids, ?_, ?_⟩
  · rw [hi2, hi1]
    exact hfinal.2
  · rw [hids]
    exact List.Nodup.sublist (List.take_sublist _ _) (List.nodup_reverse.mpr hnd)

/-- C4 witness: with `lruLimit = 2`, committing three distinct ids keeps
exactly the last two, most recent first. -/
theorem lru_bound_witness :
    ∃ ps, ((State.mk ⟨"state", ".json"⟩ 1 [] 2).update_with
        [{ id := some "E1", provider := some "usgs" },
         { id := some "E2", provider := some "usgs" },
         { id := some "E3", provider := some "usgs" }]).providers.lookup "usgs" =
          some ps ∧
      ps.ids = ["E3", "E2"] ∧ (ps.ids.length : Int) = 2 ∧ ps.ids.Nodup := by
  obtain ⟨ps, h1, h2, h3, h4⟩ := lru_bound (State.mk ⟨"state", ".json"⟩ 1 [] 2) "usgs"
    [{ id := some "E1", provider := some "usgs" },
     { id := some "E2", provider := some "usgs" },
     { id := some "E3", provider := some "usgs" }]
    (by decide) (by decide) (by decide) (by decide) (by decide)
  exact ⟨ps, h1, by rw [h2]; rfl, h3, h4⟩

end DisasterAlerts
